import Mathlib

set_option maxRecDepth 100000

/-!
Verification development for the prand library (parallel random number
generation with jump-ahead; generators MRG32k3a and MT19937).

The definitions below are shallow embeddings of the C sources
(src/mrg32k3a.c, src/mt19937.c, src/mt19937_poly.c, src/prand.c).
Machine integers are modelled as `ℕ` with explicit `% 2^32` / `% 2^64`
where the C arithmetic wraps, or as `ℤ` where the C code uses signed
int64_t arithmetic.  Polynomials over GF(2) are modelled as natural
numbers whose binary digits are the coefficients (bit `i` is the
coefficient of `t^i`); this matches the C packed little-endian 32-bit
limb representation, with C limb `r[i]` equal to `(r >>> (32*i)) % 2^32`.

The contents of the precomputed jump tables (`A1gj8i`, `A2gj8i`,
`mt19937_poly`) are declared extern in the headers but their defining
translation units are not part of src/; they are modelled from the spec
where indicated.
-/

namespace Prand

/-- Error codes from prand.h (negative = error, positive = warning). -/
def PRAND_ERR_MEMORY : ℤ := -1

def PRAND_ERR_MEMORY_JUMP : ℤ := -2

def PRAND_ERR_STEP : ℤ := -3

def PRAND_ERR_UNDEF_RNG : ℤ := -4

def PRAND_WARN_SEED : ℤ := 1

/-- MRG32K3A_MAX_STEP = MT19937_MAX_STEP = 0x7fffffffffffffff = 2^63 - 1. -/
def MAX_STEP : ℕ := 0x7fffffffffffffff

namespace Mrg32k3a

/-- Modulus m1 = 2^32 - 209 of the first MRG32k3a component. -/
def m1 : ℕ := 4294967087

/-- Modulus m2 = 2^32 - 22853 of the second MRG32k3a component. -/
def m2 : ℕ := 4294944443

def a12 : ℤ := 1403580

def a13 : ℤ := -810728

def a21 : ℤ := 527612

def a23 : ℤ := -1370589

/-- add1 = m1 * 810728 = -m1 * a13, making p1 positive (mrg32k3a.c). -/
def add1 : ℤ := 3482050076509336

/-- add2 = m2 * 1370589 = -m2 * a23, making p2 positive (mrg32k3a.c). -/
def add2 : ℤ := 5886603609186927

def DEFAULT_SEED : ℕ := 1

/-- PRAND_LCG(n) = (69069 * n + 1) & 0xffffffff on uint64_t; masking the
(possibly wrapped) 64-bit product to 32 bits equals reduction mod 2^32. -/
def lcg (n : ℕ) : ℕ := (69069 * n + 1) % 2 ^ 32

/-- mrg32k3a_state_t.  The C fields are int64_t but every value ever stored
in them is a remainder in [0, m1) or [0, m2), so they are modelled as ℕ. -/
structure State where
  s10 : ℕ
  s11 : ℕ
  s12 : ℕ
  s20 : ℕ
  s21 : ℕ
  s22 : ℕ
  deriving DecidableEq, Repr

/-- Garbage value standing in for freshly malloc'd, not yet written state
slots (their contents are never observed on the paths we reason about). -/
def dfltState : State := ⟨0, 0, 0, 0, 0, 0⟩

/-- mrg32k3a_seed: six successive LCG outputs, the first three reduced
mod m1, the last three mod m2. -/
def seed (s : ℕ) : State :=
  let n1 := lcg s
  let n2 := lcg n1
  let n3 := lcg n2
  let n4 := lcg n3
  let n5 := lcg n4
  let n6 := lcg n5
  { s10 := n1 % m1, s11 := n2 % m1, s12 := n3 % m1,
    s20 := n4 % m2, s21 := n5 % m2, s22 := n6 % m2 }

/-- mrg32k3a_get: generate an integer and update the state.  p1 and p2 are
computed in int64_t; for in-range states the numerators are positive, where
the C `%` agrees with `Int.emod`.  The uint64_t return value is modelled by
the two's-complement cast `(· % 2^64).toNat`. -/
def get (st : State) : ℕ × State :=
  let p1 : ℤ := (a12 * st.s11 + a13 * st.s10 + add1) % (m1 : ℤ)
  let p2 : ℤ := (a21 * st.s22 + a23 * st.s20 + add2) % (m2 : ℤ)
  let st' : State := { s10 := st.s11, s11 := st.s12, s12 := p1.toNat,
                       s20 := st.s21, s21 := st.s22, s22 := p2.toNat }
  (((if p1 ≤ p2 then p1 - p2 + m1 else p1 - p2) % (2 ^ 64 : ℤ)).toNat, st')

/-- A 3x3 matrix of uint64_t entries, row-major like the C `uint64_t A[9]`. -/
structure Mat where
  e0 : ℕ
  e1 : ℕ
  e2 : ℕ
  e3 : ℕ
  e4 : ℕ
  e5 : ℕ
  e6 : ℕ
  e7 : ℕ
  e8 : ℕ
  deriving DecidableEq, Repr

/-- matrix_dot: C = (A * B) % m.  Every partial product is reduced mod m
before summing; operands are < 2^32 so the uint64_t products do not wrap,
hence plain ℕ arithmetic is exact. -/
def matrix_dot (A B : Mat) (m : ℕ) : Mat :=
  { e0 := ((A.e0 * B.e0) % m + (A.e1 * B.e3) % m + (A.e2 * B.e6) % m) % m,
    e1 := ((A.e0 * B.e1) % m + (A.e1 * B.e4) % m + (A.e2 * B.e7) % m) % m,
    e2 := ((A.e0 * B.e2) % m + (A.e1 * B.e5) % m + (A.e2 * B.e8) % m) % m,
    e3 := ((A.e3 * B.e0) % m + (A.e4 * B.e3) % m + (A.e5 * B.e6) % m) % m,
    e4 := ((A.e3 * B.e1) % m + (A.e4 * B.e4) % m + (A.e5 * B.e7) % m) % m,
    e5 := ((A.e3 * B.e2) % m + (A.e4 * B.e5) % m + (A.e5 * B.e8) % m) % m,
    e6 := ((A.e6 * B.e0) % m + (A.e7 * B.e3) % m + (A.e8 * B.e6) % m) % m,
    e7 := ((A.e6 * B.e1) % m + (A.e7 * B.e4) % m + (A.e8 * B.e7) % m) % m,
    e8 := ((A.e6 * B.e2) % m + (A.e7 * B.e5) % m + (A.e8 * B.e8) % m) % m }

/-- Modelled from the spec: one-step advancing matrix A1 of spec §4.4, with
the negative entry replaced by m1 - 810728. -/
def A1 : Mat := ⟨0, 1, 0, 0, 0, 1, m1 - 810728, 1403580, 0⟩

/-- Modelled from the spec: one-step advancing matrix A2 of spec §4.4, with
the negative entry replaced by m2 - 1370589. -/
def A2 : Mat := ⟨0, 1, 0, 0, 0, 1, m2 - 1370589, 0, 527612⟩

/-- Identity 3x3 matrix. -/
def idMat : Mat := ⟨1, 0, 0, 0, 1, 0, 0, 0, 1⟩

/-- Matrix power with entrywise reduction mod m; used only to state the
contents of the precomputed jump tables. -/
def matPowMod (A : Mat) (m : ℕ) : ℕ → Mat
  | 0 => idMat
  | e + 1 => matrix_dot A (matPowMod A m e) m

/-- Modelled from the spec: the table `A1gj8i` is declared extern in
mrg32k3a_jump.h but its translation unit is not in src/.  Per spec §6,
"Index (i, g−1) encodes the jump of g · 8^i steps", so entry [i][j] is
A1^((j+1)·8^i) mod m1. -/
def A1gj8i (i j : ℕ) : Mat := matPowMod A1 m1 ((j + 1) * 8 ^ i)

/-- Modelled from the spec: entry [i][j] of `A2gj8i` is A2^((j+1)·8^i)
mod m2 (see `A1gj8i`). -/
def A2gj8i (i j : ℕ) : Mat := matPowMod A2 m2 ((j + 1) * 8 ^ i)

/-- Loop body of matrix_pow: walk the base-8 digits of n starting from the
least significant; `acc = none` models the C `init` flag still being unset.
The structural fuel replaces the C `while (n)` loop; 64 fuel is enough for
any uint64_t step (22 base-8 digits). -/
def matrix_pow_loop : ℕ → ℕ → ℕ → Option (Mat × Mat) → Option (Mat × Mat)
  | 0, _, _, acc => acc
  | fuel + 1, n, i, acc =>
    if n = 0 then acc
    else
      let j := n % 8
      let acc' :=
        if j = 0 then acc
        else
          some (match acc with
          | none => (A1gj8i i (j - 1), A2gj8i i (j - 1))
          | some (B1, B2) =>
              (matrix_dot (A1gj8i i (j - 1)) B1 m1,
               matrix_dot (A2gj8i i (j - 1)) B2 m2))
      matrix_pow_loop fuel (n / 8) (i + 1) acc'

/-- matrix_pow: compute (A1^step mod m1, A2^step mod m2) from the base-8
jump tables; for step == 0 the C code falls back to the table's [0][0]
entries. -/
def matrix_pow (step : ℕ) : Mat × Mat :=
  match matrix_pow_loop 64 step 0 none with
  | some p => p
  | none => (A1gj8i 0 0, A2gj8i 0 0)

/-- state_forward: update the state with matrix multiplication.  Matrix
entries and state components are < 2^32, so the uint64_t products do not
wrap and plain ℕ arithmetic is exact. -/
def state_forward (st : State) (B1 B2 : Mat) : State :=
  { s10 := ((B1.e0 * st.s10) % m1 + (B1.e1 * st.s11) % m1 + (B1.e2 * st.s12) % m1) % m1,
    s11 := ((B1.e3 * st.s10) % m1 + (B1.e4 * st.s11) % m1 + (B1.e5 * st.s12) % m1) % m1,
    s12 := ((B1.e6 * st.s10) % m1 + (B1.e7 * st.s11) % m1 + (B1.e8 * st.s12) % m1) % m1,
    s20 := ((B2.e0 * st.s20) % m2 + (B2.e1 * st.s21) % m2 + (B2.e2 * st.s22) % m2) % m2,
    s21 := ((B2.e3 * st.s20) % m2 + (B2.e4 * st.s21) % m2 + (B2.e5 * st.s22) % m2) % m2,
    s22 := ((B2.e6 * st.s20) % m2 + (B2.e7 * st.s21) % m2 + (B2.e8 * st.s22) % m2) % m2 }

/-- Sequential loop `for (i = i0; count iterations) l[i] := f l[i-1]`,
modelling both the step-0 copy chain and the state_forward chain of
jump_seq (list entries beyond the loop range are untouched, as in C). -/
def chain_loop (f : State → State) : ℕ → ℕ → List State → List State
  | 0, _, l => l
  | c + 1, i, l => chain_loop f c (i + 1) (l.set i (f (l.getD (i - 1) dfltState)))

/-- mrg32k3a_jump_seq: fill state[0] with the initial state, then advance
each stream from its predecessor (copying when step == 0). -/
def jump_seq (states : List State) (istate : State) (nstream step : ℕ)
    (err : ℤ) : List State × ℤ :=
  if err < 0 then (states, err)
  else
    let states0 := states.set 0 istate
    if step = 0 then (chain_loop id (nstream - 1) 1 states0, err)
    else
      let P := matrix_pow step
      (chain_loop (fun s => state_forward s P.1 P.2) (nstream - 1) 1 states0, err)

/-- mrg32k3a_jump: jump ahead for one stream. -/
def jump (st : State) (step : ℕ) (err : ℤ) : State × ℤ :=
  if err < 0 then (st, err)
  else if step = 0 then (st, err)
  else if MAX_STEP < step then (st, PRAND_ERR_STEP)
  else
    let P := matrix_pow step
    (state_forward st P.1 P.2, err)

/-- mrg32k3a_jump_all: jump ahead the same number of steps for all streams. -/
def jump_all (states : List State) (step : ℕ) (err : ℤ) : List State × ℤ :=
  if err < 0 then (states, err)
  else if step = 0 then (states, err)
  else if MAX_STEP < step then (states, PRAND_ERR_STEP)
  else
    let P := matrix_pow step
    (states.map (fun s => state_forward s P.1 P.2), err)

/-- mrg32k3a_reset: reseed one stream (default seed 1 and warning for
seed == 0), then jump ahead by step. -/
def reset (st : State) (sd step : ℕ) (err : ℤ) : State × ℤ :=
  if err < 0 then (st, err)
  else
    let err1 := if sd = 0 then PRAND_WARN_SEED else err
    let st1 := seed (if sd = 0 then DEFAULT_SEED else sd)
    jump st1 step err1

/-- Copy loop of mrg32k3a_reset_all for step == 0:
`for (i = 1; i < nstream; i++) memcpy(state_stream[i], stat, ...)`. -/
def fill_loop (v : State) : ℕ → ℕ → List State → List State
  | 0, _, l => l
  | c + 1, i, l => fill_loop v c (i + 1) (l.set i v)

/-- mrg32k3a_reset_all: reseed stream 0, then for step == 0 copy the seeded
state into every other stream; otherwise jump (single stream) or fan out
via jump_seq.  The handle's nstream field equals the length of the stream
list. -/
def reset_all (states : List State) (sd step : ℕ) (err : ℤ) : List State × ℤ :=
  if err < 0 then (states, err)
  else
    let err1 := if sd = 0 then PRAND_WARN_SEED else err
    let st1 := seed (if sd = 0 then DEFAULT_SEED else sd)
    let states1 := states.set 0 st1
    if step = 0 then (fill_loop st1 (states.length - 1) 1 states1, err1)
    else if MAX_STEP < step then (states1, PRAND_ERR_STEP)
    else if states.length ≤ 1 then
      let r := jump st1 step err1
      (states1.set 0 r.1, r.2)
    else jump_seq states1 st1 states.length step err1

/-- mrg32k3a_init: allocate, seed stream 0, then jump (for nstream == 0)
or fan out through jump_seq (for nstream ≥ 1; note that jump_seq with
nstream == 1 performs no advance).  Allocation always succeeds in the
model; fresh slots hold `dfltState` garbage until written. -/
def init (sd : ℕ) (nstream : ℕ) (step : ℕ) (err : ℤ) :
    Option (List State) × ℤ :=
  if MAX_STEP < step then (none, PRAND_ERR_STEP)
  else
    let numstr := if nstream = 0 then 1 else nstream
    let garbage : List State := List.replicate numstr dfltState
    let err1 := if sd = 0 then PRAND_WARN_SEED else err
    let st0 := seed (if sd = 0 then DEFAULT_SEED else sd)
    let states0 := garbage.set 0 st0
    if nstream = 0 then
      let r := jump st0 step err1
      (some (states0.set 0 r.1), r.2)
    else
      let r := jump_seq states0 st0 nstream step err1
      (some r.1, r.2)

end Mrg32k3a

namespace Mt19937

/-- State size N = 624 words. -/
def N : ℕ := 624

/-- Twist offset M = 397. -/
def M : ℕ := 397

/-- Degree K = 19937 of the minimal polynomial. -/
def K : ℕ := 19937

/-- Twist constant MA = 0x9908b0df. -/
def MA : ℕ := 0x9908b0df

/-- UPPER_MASK(x) = 0x80000000 & x (most significant w-r bits). -/
def UPPER_MASK (x : ℕ) : ℕ := 0x80000000 &&& x

/-- LOWER_MASK(x) = 0x7fffffff & x (least significant r bits). -/
def LOWER_MASK (x : ℕ) : ℕ := 0x7fffffff &&& x

/-- MAGIC(y) = (y & 1) ? MA : 0 (the default, non-unrolled variant). -/
def MAGIC (y : ℕ) : ℕ := if y &&& 1 = 1 then MA else 0

def DEFAULT_SEED : ℕ := 1

/-- mt19937_state_t: 624 uint32_t words plus an index.  The C idx field is
int but only ever holds values in [0, N]. -/
structure State where
  mt : List ℕ
  idx : ℕ
  deriving DecidableEq, Repr

/-- Twist assignment mt[k] = mt[koff] ^ (y >> 1) ^ MAGIC(y) with
y = UPPER_MASK(mt[k]) | LOWER_MASK(mt[knext]); shared body of the three
twist loops. -/
def twist_step (a : List ℕ) (k koff knext : ℕ) : List ℕ :=
  let y := UPPER_MASK (a.getD k 0) ||| LOWER_MASK (a.getD knext 0)
  a.set k ((a.getD koff 0) ^^^ (y >>> 1) ^^^ MAGIC y)

/-- First twist loop: k in [0, N-M), reading mt[k+M]. -/
def twist_loop1 : ℕ → ℕ → List ℕ → List ℕ
  | 0, _, a => a
  | c + 1, k, a => twist_loop1 c (k + 1) (twist_step a k (k + M) (k + 1))

/-- Second twist loop: k in [N-M, N-1), reading the already-updated
mt[k+M-N]. -/
def twist_loop2 : ℕ → ℕ → List ℕ → List ℕ
  | 0, _, a => a
  | c + 1, k, a => twist_loop2 c (k + 1) (twist_step a k (k + M - N) (k + 1))

/-- Full twist: regenerate all N words (the k = N-1 step wraps to mt[0]). -/
def twist (a : List ℕ) : List ℕ :=
  twist_step (twist_loop2 (M - 1) (N - M) (twist_loop1 (N - M) 0 a)) (N - 1) (M - 1) 0

/-- Seeding loop: mt[i] = 1812433253 * (mt[i-1] ^ (mt[i-1] >> 30)) + i
(uint32_t arithmetic). -/
def seed_loop : ℕ → ℕ → ℕ → List ℕ
  | 0, _, _ => []
  | c + 1, i, prev =>
    let w := (1812433253 * (prev ^^^ (prev >>> 30)) + i) % 2 ^ 32
    w :: seed_loop c (i + 1) w

/-- mt19937_seed: mt[0] = (uint32_t) seed, LCG fill, idx = N. -/
def seed (s : ℕ) : State :=
  { mt := s % 2 ^ 32 :: seed_loop (N - 1) 1 (s % 2 ^ 32), idx := N }

/-- mt19937_get: twist when idx ≥ N, then temper mt[idx] and advance idx. -/
def get (st : State) : ℕ × State :=
  let st1 := if N ≤ st.idx then { mt := twist st.mt, idx := 0 } else st
  let y0 := st1.mt.getD st1.idx 0
  let y1 := y0 ^^^ (y0 >>> 11)
  let y2 := y1 ^^^ ((y1 <<< 7) % 2 ^ 32 &&& 0x9d2c5680)
  let y3 := y2 ^^^ ((y2 <<< 15) % 2 ^ 32 &&& 0xefc60000)
  let y4 := y3 ^^^ (y3 >>> 18)
  (y4, { mt := st1.mt, idx := st1.idx + 1 })

/-- next_state: twist when idx ≥ N, then return the raw word mt[idx] and
advance idx (no tempering). -/
def next_state (st : State) : ℕ × State :=
  let st1 := if N ≤ st.idx then { mt := twist st.mt, idx := 0 } else st
  (st1.mt.getD st1.idx 0, { mt := st1.mt, idx := st1.idx + 1 })

/-- Initial fill of recover_state: for i in [K-N+1, K] (N values, covering
every residue mod N), mt[i % N] := COEF(poly, i). -/
def recover_fill (poly : ℕ) : ℕ → ℕ → List ℕ → List ℕ
  | 0, _, a => a
  | c + 1, i, a =>
      recover_fill poly c (i + 1) (a.set (i % N) (if poly.testBit i then 1 else 0))

/-- Main loop of recover_state, i descending from K+1 to N-1, rebuilding
mt[(i+1) % N] from the reversed recurrence (uint32_t shifts wrap).  The C
index expression `i - N + 1` is `(i - N) + 1` in int arithmetic, which for
i ≥ N - 1 equals the ℕ expression `i + 1 - N`. -/
def recover_loop (poly : ℕ) : ℕ → ℕ → ℕ → List ℕ → List ℕ
  | 0, _, _, a => a
  | c + 1, i, y0, a =>
    let y1 := (a.getD (i % N) 0) ^^^ (a.getD ((i + M) % N) 0)
    let y1 := if poly.testBit (i + 1 - N)
      then (((y1 ^^^ MA) <<< 1) % 2 ^ 32) ||| 1
      else (y1 <<< 1) % 2 ^ 32
    recover_loop poly c (i - 1) y1 (a.set ((i + 1) % N) (UPPER_MASK y0 ||| LOWER_MASK y1))

/-- recover_state: reconstruct a canonical state from a polynomial of
output bits and set idx = 0.  The previous contents of the state are never
read: the initial fill covers every word. -/
def recover_state (poly : ℕ) : State :=
  { mt := recover_loop poly (K - N + 3) (K + 1) 0
      (recover_fill poly N (K - N + 1) (List.replicate N 0)),
    idx := 0 }

/-- Modelled from the claim (C6): the polynomial whose coefficient of t^j
is the low bit of the j-th raw output (next_state) drawn from S, for
j < K = 19937. -/
def poly_of_state_loop : ℕ → State → ℕ → ℕ → ℕ
  | 0, _, _, acc => acc
  | c + 1, st, j, acc =>
    let r := next_state st
    poly_of_state_loop c r.2 (j + 1) (acc ||| ((r.1 &&& 1) <<< j))

/-- Polynomial of the first 19937 output bits generated from a state. -/
def poly_of_state (st : State) : ℕ := poly_of_state_loop K st 0 0

end Mt19937

namespace Poly

/-- WORD_SIZE = 32. -/
def WORD_SIZE : ℕ := 32

/-- C limb r[i] of a packed polynomial (bit k of limb i is the coefficient
of t^(32*i+k)). -/
def wordAt (r i : ℕ) : ℕ := (r >>> (32 * i)) % 2 ^ 32

/-- Model of the C statement `r[i] ^= v` for v < 2^32. -/
def xorAt (r i v : ℕ) : ℕ := r ^^^ (v <<< (32 * i))

/-- Model of the C statement `r[i] = v` (overwrite word i) for v < 2^32. -/
def setAt (r i v : ℕ) : ℕ := r ^^^ ((wordAt r i ^^^ v) <<< (32 * i))

/-- Reassemble a little-endian list of 32-bit words into a packed value. -/
def natOfWords (ws : List ℕ) : ℕ := ws.foldr (fun w acc => w % 2 ^ 32 + 2 ^ 32 * acc) 0

/-- Lookup table WORD_MASK[2] = {0, 0xffffffff} of the grade-school
multiplication. -/
def WORD_MASK (b : ℕ) : ℕ := if b = 1 then 0xffffffff else 0

/-- poly_mul1: the 2-word product of two 32-bit polynomials by 32 masked
XOR-shift accumulations.  Step k contributes t << k split across the two
result words; at k = 0 the high half t >> 32 is zero, matching the C
code's omission of that term (which avoids the UB 32-bit shift). -/
def poly_mul1 (a b : ℕ) : ℕ :=
  let f := fun (r : ℕ × ℕ) (k : ℕ) =>
    let t := b &&& WORD_MASK ((a >>> k) &&& 1)
    (r.1 ^^^ ((t <<< k) % 2 ^ 32), r.2 ^^^ (t >>> (32 - k)))
  let r := (List.range 32).foldl f (0, 0)
  r.1 + 2 ^ 32 * r.2

/-- kara_mul2: 2-word Karatsuba with the precomputed tmp[0] = r[1] ^ r[2]. -/
def kara_mul2 (a b : ℕ) : ℕ :=
  let a0 := wordAt a 0
  let a1 := wordAt a 1
  let b0 := wordAt b 0
  let b1 := wordAt b 1
  let p0 := poly_mul1 a0 b0
  let p1 := poly_mul1 a1 b1
  let t0 := wordAt p0 1 ^^^ wordAt p1 0
  let pm := poly_mul1 (a0 ^^^ a1) (b0 ^^^ b1)
  natOfWords [wordAt p0 0,
              wordAt p0 0 ^^^ wordAt pm 0 ^^^ t0,
              wordAt p1 1 ^^^ wordAt pm 1 ^^^ t0,
              wordAt p1 1]

/-- kara_mul3: three-way splitting with the four precomputed tmp words. -/
def kara_mul3 (a b : ℕ) : ℕ :=
  let a0 := wordAt a 0
  let a1 := wordAt a 1
  let a2 := wordAt a 2
  let b0 := wordAt b 0
  let b1 := wordAt b 1
  let b2 := wordAt b 2
  let p0 := poly_mul1 a0 b0
  let p1 := poly_mul1 a1 b1
  let p2 := poly_mul1 a2 b2
  let m01 := poly_mul1 (a0 ^^^ a1) (b0 ^^^ b1)
  let m12 := poly_mul1 (a1 ^^^ a2) (b1 ^^^ b2)
  let m20 := poly_mul1 (a2 ^^^ a0) (b2 ^^^ b0)
  let t0 := wordAt p0 1 ^^^ wordAt p1 0
  let t1 := wordAt p0 0 ^^^ t0
  let t2 := wordAt p1 1 ^^^ wordAt p2 0
  let t3 := t2 ^^^ wordAt p2 1
  natOfWords [wordAt p0 0,
              t1 ^^^ wordAt m01 0,
              t1 ^^^ t2 ^^^ wordAt m01 1 ^^^ wordAt m20 0,
              t0 ^^^ t3 ^^^ wordAt m12 0 ^^^ wordAt m20 1,
              t3 ^^^ wordAt m12 1,
              wordAt p2 1]

/-- kara_mul4: split into two kara_mul2 halves; the middle kara_mul2 is
written over r[2..5] and then combined in place. -/
def kara_mul4 (a b : ℕ) : ℕ :=
  let lo := kara_mul2 (a % 2 ^ 64) (b % 2 ^ 64)
  let hi := kara_mul2 (a >>> 64) (b >>> 64)
  let t0 := wordAt lo 2 ^^^ wordAt hi 0
  let t1 := wordAt lo 3 ^^^ wordAt hi 1
  let mm := kara_mul2 ((a % 2 ^ 64) ^^^ (a >>> 64)) ((b % 2 ^ 64) ^^^ (b >>> 64))
  natOfWords [wordAt lo 0, wordAt lo 1,
              wordAt mm 0 ^^^ t0 ^^^ wordAt lo 0,
              wordAt mm 1 ^^^ t1 ^^^ wordAt lo 1,
              wordAt mm 2 ^^^ t0 ^^^ wordAt hi 2,
              wordAt mm 3 ^^^ t1 ^^^ wordAt hi 3,
              wordAt hi 2, wordAt hi 3]

/-- kara_mul5: kara_mul3 low half (3 words), kara_mul2 high half (2 words);
the unbalanced middle product takes t[5] = a[2] and t[8] = b[2] unmixed,
and the last two combination lines have no r3 contribution. -/
def kara_mul5 (a b : ℕ) : ℕ :=
  let lo := kara_mul3 (a % 2 ^ 96) (b % 2 ^ 96)
  let hi := kara_mul2 (a >>> 96) (b >>> 96)
  let t0 := wordAt lo 3 ^^^ wordAt hi 0
  let t1 := wordAt lo 4 ^^^ wordAt hi 1
  let t2 := wordAt lo 5 ^^^ wordAt hi 2
  let mm := kara_mul3 ((a % 2 ^ 96) ^^^ (a >>> 96)) ((b % 2 ^ 96) ^^^ (b >>> 96))
  natOfWords [wordAt lo 0, wordAt lo 1, wordAt lo 2,
              wordAt mm 0 ^^^ t0 ^^^ wordAt lo 0,
              wordAt mm 1 ^^^ t1 ^^^ wordAt lo 1,
              wordAt mm 2 ^^^ t2 ^^^ wordAt lo 2,
              wordAt mm 3 ^^^ t0 ^^^ wordAt hi 3,
              wordAt mm 4 ^^^ t1,
              wordAt mm 5 ^^^ t2,
              wordAt hi 3]

/-- kara_mul6: two kara_mul3 halves with a full middle kara_mul3. -/
def kara_mul6 (a b : ℕ) : ℕ :=
  let lo := kara_mul3 (a % 2 ^ 96) (b % 2 ^ 96)
  let hi := kara_mul3 (a >>> 96) (b >>> 96)
  let t0 := wordAt lo 3 ^^^ wordAt hi 0
  let t1 := wordAt lo 4 ^^^ wordAt hi 1
  let t2 := wordAt lo 5 ^^^ wordAt hi 2
  let mm := kara_mul3 ((a % 2 ^ 96) ^^^ (a >>> 96)) ((b % 2 ^ 96) ^^^ (b >>> 96))
  natOfWords [wordAt lo 0, wordAt lo 1, wordAt lo 2,
              wordAt mm 0 ^^^ t0 ^^^ wordAt lo 0,
              wordAt mm 1 ^^^ t1 ^^^ wordAt lo 1,
              wordAt mm 2 ^^^ t2 ^^^ wordAt lo 2,
              wordAt mm 3 ^^^ t0 ^^^ wordAt hi 3,
              wordAt mm 4 ^^^ t1 ^^^ wordAt hi 4,
              wordAt mm 5 ^^^ t2 ^^^ wordAt hi 5,
              wordAt hi 3, wordAt hi 4, wordAt hi 5]

/-- kara_mul: the recursive Karatsuba split (n > 6) with n1 = ceil(n/2),
n2 = floor(n/2).  `pm` is the recursive multiplier (poly_mul with one unit
of fuel spent).  The C routine computes in place over a 2n-word r and a
shared tmp; its net effect, region by region (r[0..n1), r[n1..2n1),
r[2n1..3n1), r[3n1..2n)), is assembled here from the three sub-products
p1 = a_lo*b_lo, p2 = a_hi*b_hi, mm = (a_lo^a_hi)*(b_lo^b_hi) and
t0 = r1 ^ r2 = (p1 >> 32n1) ^ (p2 mod 2^32n1); for odd n the two extra
combination steps of the C code are exactly the vanishing of the missing
high words of p2 >> 32n1, so the formula below covers both parities. -/
def kara_mul (pm : ℕ → ℕ → ℕ → ℕ) (a b n : ℕ) : ℕ :=
  let n1 := (n + 1) >>> 1
  let a2 := a >>> (32 * n1)
  let b2 := b >>> (32 * n1)
  let p1 := pm (a % 2 ^ (32 * n1)) (b % 2 ^ (32 * n1)) n1
  let p2 := pm a2 b2 (n >>> 1)
  let t0 := (p1 >>> (32 * n1)) ^^^ (p2 % 2 ^ (32 * n1))
  let mm := pm ((a % 2 ^ (32 * n1)) ^^^ a2) ((b % 2 ^ (32 * n1)) ^^^ b2) n1
  p1 % 2 ^ (32 * n1)
    + 2 ^ (32 * n1) * ((mm % 2 ^ (32 * n1)) ^^^ t0 ^^^ (p1 % 2 ^ (32 * n1)))
    + 2 ^ (32 * n1) * 2 ^ (32 * n1) * ((mm >>> (32 * n1)) ^^^ t0 ^^^ (p2 >>> (32 * n1)))
    + 2 ^ (32 * n1) * 2 ^ (32 * n1) * 2 ^ (32 * n1) * (p2 >>> (32 * n1))

/-- poly_mul with structural fuel (the recursion depth is logarithmic in n,
so fuel n + 1 is always enough).  Inputs are first masked to their n-word
extent, as the C routines read exactly n words of each operand.  The C
switch default (n = 0) writes nothing into a zeroed destination. -/
def poly_mulF : ℕ → ℕ → ℕ → ℕ → ℕ
  | 0, _, _, _ => 0
  | f + 1, a, b, n =>
    let a' := a % 2 ^ (32 * n)
    let b' := b % 2 ^ (32 * n)
    if n = 1 then poly_mul1 (wordAt a' 0) (wordAt b' 0)
    else if n = 2 then kara_mul2 a' b'
    else if n = 3 then kara_mul3 a' b'
    else if n = 4 then kara_mul4 a' b'
    else if n = 5 then kara_mul5 a' b'
    else if n = 6 then kara_mul6 a' b'
    else if n = 0 then 0
    else kara_mul (poly_mulF f) a' b' n

/-- poly_mul: r = a * b over GF(2), both operands of n words. -/
def poly_mul (a b n : ℕ) : ℕ := poly_mulF (n + 1) a b n

/-- poly_mul_ub: r = a * b with a of 2n words and b of n words.  The C
routine saves the upper n words of the low product in t0, overwrites them
with the high product and XORs t0 back in; the net effect is the low
product XOR the high product shifted by n words. -/
def poly_mul_ub (a b n : ℕ) : ℕ :=
  let rlo := poly_mul (a % 2 ^ (32 * n)) b n
  let t0 := (rlo >>> (32 * n)) % 2 ^ (32 * n)
  let rhi := poly_mul (a >>> (32 * n)) b n
  rlo % 2 ^ (32 * n) + 2 ^ (32 * n) * (rhi ^^^ t0)

/-- MT19937_POLY_LEN: degree of the minimal polynomial phi. -/
def MT19937_POLY_LEN : ℕ := 19937

/-- phi_bit_pos (mt19937_poly.c): the 134 non-leading nonzero coefficient
positions of phi. -/
def phi_bit_pos : List ℕ :=
  [0, 1189, 1416, 1585, 1643, 1870, 2493, 2773, 3000, 3227, 3454, 3681, 3908, 4135,
   4362, 4753, 5661, 6337, 6569, 7129, 7477, 7525, 7583, 7752, 7979, 8206,
   9505, 9901, 9969, 10128, 10693, 10761, 10920, 11089, 11147, 11157, 11215, 11321,
   11374, 11384, 11485, 11611, 11712, 11717, 11838, 11881, 11944, 11997, 12277, 12335,
   12393, 12504, 12509, 12620, 12673, 12731, 12736, 12789, 12905, 12958, 12963, 13137,
   13185, 13190, 13243, 13301, 13412, 13528, 13533, 13639, 13697, 13760, 13813, 13866,
   14093, 14151, 14209, 14320, 14325, 14436, 14547, 14552, 14605, 14721, 14774, 14779,
   14953, 15001, 15006, 15059, 15117, 15228, 15344, 15349, 15455, 15513, 15576, 15629,
   15682, 15909, 15967, 16025, 16136, 16141, 16252, 16363, 16368, 16421, 16537, 16590,
   16595, 16817, 16822, 16875, 16933, 17044, 17160, 17271, 17329, 17445, 17498, 17725,
   17783, 17841, 17952, 18068, 18179, 18237, 18406, 18633, 18691, 18860, 19087, 19314]

/-- phi_block_pos (mt19937_poly.c): the 34 strictly decreasing block
boundaries of the modular reduction. -/
def phi_block_pos : List ℕ :=
  [39875, 39252, 38629, 38006, 37383, 36760, 36137, 35514, 34891, 34268, 33645, 33022,
   32399, 31776, 31153, 30530, 29907, 29284, 28661, 28038, 27415, 26792, 26169,
   25546, 24923, 24300, 23677, 23054, 22431, 21808, 21185, 20562, 19939, 19937]

/-- Unaligned loop of copy_bits:
r[i] = (a[aoff+i] >> left) | (a[aoff+i+1] << (32-left)). -/
def copy_bits_loop (a aoff left : ℕ) : ℕ → ℕ → ℕ → ℕ
  | 0, _, t => t
  | c + 1, i, t =>
      copy_bits_loop a aoff left c (i + 1)
        (setAt t i ((wordAt a (aoff + i) >>> left) |||
                    ((wordAt a (aoff + i + 1) <<< (32 - left)) % 2 ^ 32)))

/-- Aligned loop of copy_bits (the C memcpy of n words). -/
def copy_words_loop (a aoff : ℕ) : ℕ → ℕ → ℕ → ℕ
  | 0, _, t => t
  | c + 1, i, t => copy_words_loop a aoff c (i + 1) (setAt t i (wordAt a (aoff + i)))

/-- copy_bits: copy bits [start, fin) of a to the beginning of t, masking
the final partial word to (fin-start) mod 32 bits.  (The C parameter `end`
is renamed fin; `end` is a Lean keyword.) -/
def copy_bits (t a start fin : ℕ) : ℕ :=
  let left := start % 32
  let len := fin - start
  let n := len / 32
  let aoff := start / 32
  let t1 := if left ≠ 0 then copy_bits_loop a aoff left n 0 t
            else copy_words_loop a aoff n 0 t
  if len % 32 ≠ 0 then
    let w := wordAt a (aoff + n) >>> left
    let w := if left ≠ 0 ∧ fin % 32 ≠ 0
             then w ||| ((wordAt a (aoff + n + 1) <<< (32 - left)) % 2 ^ 32)
             else w
    setAt t1 n (w &&& (2 ^ (len % 32) - 1))
  else t1

/-- Carry loop of shifted_add for 0 < shift < 32, with the final
r[w+n] ^= prev >> (32-shift) as the base case. -/
def shifted_add_loop (a shift : ℕ) : ℕ → ℕ → ℕ → ℕ → ℕ → ℕ
  | 0, _, prev, w, r => xorAt r w (prev >>> (32 - shift))
  | c + 1, i, prev, w, r =>
      shifted_add_loop a shift c (i + 1) (wordAt a i) (w + 1)
        (xorAt r w (((wordAt a i <<< shift) % 2 ^ 32) ||| (prev >>> (32 - shift))))

/-- Loop of shifted_add for shift == 0: r[w+i] ^= a[i]. -/
def xor_words_loop (a : ℕ) : ℕ → ℕ → ℕ → ℕ → ℕ
  | 0, _, _, r => r
  | c + 1, i, w, r => xor_words_loop a c (i + 1) (w + 1) (xorAt r w (wordAt a i))

/-- shifted_add: r ^= a << shift, with a of n words, shift < 32, at word
offset w (the C call passes the shifted pointer r + DIV_NBIT(pos)). -/
def shifted_add (r w a n shift : ℕ) : ℕ :=
  if shift = 0 then xor_words_loop a n 0 w r
  else shifted_add_loop a shift n 0 0 w r

/-- Inner loop of poly_mod_phi: XOR the extracted block t into r at
pos = p + start - 19937 for every non-leading position p of phi. -/
def mod_phi_inner (t size start : ℕ) (ps : List ℕ) (r : ℕ) : ℕ :=
  ps.foldl (fun r p =>
    let pos := p + start - MT19937_POLY_LEN
    shifted_add r (pos / 32) t size (pos % 32)) r

/-- One block [start, fin) of poly_mod_phi: extract the block, XOR it at
the 134 shifted positions, then XOR it at start (the leading coefficient),
which clears the block. -/
def mod_phi_block (rt : ℕ × ℕ) (start fin : ℕ) : ℕ × ℕ :=
  let size := (fin - start + WORD_SIZE - 1) / 32
  let t := copy_bits rt.2 rt.1 start fin
  let r1 := mod_phi_inner t size start phi_bit_pos rt.1
  (shifted_add r1 (start / 32) t size (start % 32), t)

/-- Outer loop of poly_mod_phi over the 33 descending blocks formed by
adjacent pairs of phi_block_pos (scratch t threads through like the C tmp
buffer). -/
def mod_phi_blocks : List ℕ → ℕ × ℕ → ℕ × ℕ
  | e :: s :: rest, rt => mod_phi_blocks (s :: rest) (mod_phi_block rt s e)
  | _, rt => rt

/-- poly_mod_phi: reduce r in place modulo phi.  The caller's tmp scratch
is threaded through; its prior contents are never read before being
overwritten (copy_bits writes every word that shifted_add reads). -/
def poly_mod_phi (r tmp : ℕ) : ℕ := (mod_phi_blocks phi_block_pos (r, tmp)).1

end Poly

namespace Poly

/-- Modelled from the spec: the minimal polynomial phi of MT19937 as a
packed GF(2) polynomial: the leading term t^19937 plus the 134 positions
of phi_bit_pos (135 nonzero coefficients in total). -/
def phiPoly : ℕ := phi_bit_pos.foldl (fun acc p => acc ||| (1 <<< p)) (1 <<< MT19937_POLY_LEN)

/-- Carryless (GF(2)) product, structural on fuel (the bit length of a is
at most a, so fuel a suffices). -/
def clMulF (b : ℕ) : ℕ → ℕ → ℕ
  | 0, _ => 0
  | f + 1, a =>
      if a = 0 then 0
      else (if a % 2 = 1 then b else 0) ^^^ (2 * clMulF b f (a / 2))

/-- Carryless product of two packed GF(2) polynomials. -/
def clMul (a b : ℕ) : ℕ := clMulF b a a

/-- Bit length, structural on fuel. -/
def bitLen : ℕ → ℕ → ℕ
  | 0, _ => 0
  | f + 1, n => if n = 0 then 0 else bitLen f (n / 2) + 1

/-- Euclidean reduction of a modulo the packed GF(2) polynomial m (m ≥ 2):
repeatedly clear the top bit of a with a shifted copy of m. -/
def polModF (m : ℕ) : ℕ → ℕ → ℕ
  | 0, a => a
  | f + 1, a =>
      if a < m then a
      else polModF m f (a ^^^ (m <<< (bitLen a a - bitLen m m)))

/-- Remainder of a GF(2) polynomial division. -/
def polMod (a m : ℕ) : ℕ := polModF m a a

/-- Square-and-multiply b^e mod m over GF(2), structural on fuel (64 covers
any uint64_t exponent). -/
def polPowModF (b m : ℕ) : ℕ → ℕ → ℕ
  | 0, _ => 1 % m
  | f + 1, e =>
      if e = 0 then 1 % m
      else
        let h := polPowModF b m f (e / 2)
        let h2 := polMod (clMul h h) m
        if e % 2 = 1 then polMod (clMul h2 b) m else h2

/-- Power t^e mod phi as a packed polynomial. -/
def polPowMod (b e m : ℕ) : ℕ := polPowModF b m 64 e

end Poly

namespace Mt19937

/-- Modelled from the spec: the table `mt19937_poly` is declared extern in
mt19937_jump.h but its translation unit is not in src/.  Per spec §6
("Index (i, g−1) encodes the jump of g · 8^i steps"), entry [i][j] is
t^((j+1)·8^i) mod phi, packed into 624 32-bit limbs. -/
def mt19937_poly (i j : ℕ) : ℕ := Poly.polPowMod 2 ((j + 1) * 8 ^ i) Poly.phiPoly

/-- Base-8 digit loop of get_poly; acc = none models the C init flag still
unset.  Structural fuel replaces the while loop (64 is enough for any
uint64_t step). -/
def get_poly_loop : ℕ → ℕ → ℕ → Option ℕ → Option ℕ
  | 0, _, _, acc => acc
  | f + 1, n, i, acc =>
    if n = 0 then acc
    else
      let j := n % 8
      let acc' :=
        if j = 0 then acc
        else some (match acc with
          | none => mt19937_poly i (j - 1)
          | some p =>
              let pm := Poly.poly_mul p (mt19937_poly i (j - 1)) N
              Poly.poly_mod_phi pm 0 % 2 ^ (32 * N))
      get_poly_loop f (n / 8) (i + 1) acc'

/-- get_poly: assemble t^step mod phi from the base-8 table, reducing after
each multiplication and copying back the first N words; step == 0 falls
back to the table's [0][0] entry.  The calloc'd scratch starts zeroed;
allocation always succeeds in the model (the C NULL path is the
MEMORY_JUMP error). -/
def get_poly (step : ℕ) : ℕ :=
  match get_poly_loop 64 step 0 none with
  | some p => p
  | none => mt19937_poly 0 0

/-- Loop of state_forward building pm from 2K raw outputs: after j steps
the output's low bit lands at position 2K-1-j (the counter c counts the
remaining steps, writing bit c-1 ... 0 in descending order). -/
def build_pm : ℕ → State → ℕ → ℕ × State
  | 0, st, pm => (pm, st)
  | c + 1, st, pm =>
      let r := next_state st
      build_pm c r.2 (pm ||| ((r.1 &&& 1) <<< c))

/-- Extraction loop of state_forward: pm[i] := COEF(ph, 2K-1-i) for
i in [0, K]. -/
def extract_loop (ph : ℕ) : ℕ → ℕ → ℕ → ℕ
  | 0, _, pm => pm
  | c + 1, i, pm =>
      extract_loop ph c (i + 1)
        (pm ||| ((if ph.testBit (2 * K - 1 - i) then 1 else 0) <<< i))

/-- state_forward (mt19937.c): drive the twist recurrence for 2K output
bits, multiply (unbalanced) by the jump polynomial pt, extract coefficients
2K-1 down to K-1 into the low bits, and reconstruct the state. -/
def state_forward (st : State) (pt : ℕ) : State :=
  let r := build_pm (2 * K) st 0
  let ph := Poly.poly_mul_ub r.1 pt N
  recover_state (extract_loop ph (K + 1) 0 0)

/-- Garbage value standing in for freshly malloc'd, not yet written state
slots. -/
def dfltState : State := ⟨List.replicate N 0, 0⟩

/-- Sequential loop `for (i = i0; count iterations) l[i] := f l[i-1]`
shared by the copy chain and the advance chain of jump_seq. -/
def chain_loop (f : State → State) : ℕ → ℕ → List State → List State
  | 0, _, l => l
  | c + 1, i, l => chain_loop f c (i + 1) (l.set i (f (l.getD (i - 1) dfltState)))

/-- mt19937_jump_seq: fill state[0] with the initial state, then advance
each stream from its predecessor (copying when step == 0). -/
def jump_seq (states : List State) (istate : State) (nstream step : ℕ)
    (err : ℤ) : List State × ℤ :=
  if err < 0 then (states, err)
  else
    let states0 := states.set 0 istate
    if step = 0 then (chain_loop id (nstream - 1) 1 states0, err)
    else
      let poly := get_poly step
      (chain_loop (fun s => state_forward s poly) (nstream - 1) 1 states0, err)

/-- mt19937_jump: jump ahead for one stream. -/
def jump (st : State) (step : ℕ) (err : ℤ) : State × ℤ :=
  if err < 0 then (st, err)
  else if step = 0 then (st, err)
  else if MAX_STEP < step then (st, PRAND_ERR_STEP)
  else (state_forward st (get_poly step), err)

/-- mt19937_jump_all: jump ahead the same number of steps for all streams. -/
def jump_all (states : List State) (step : ℕ) (err : ℤ) : List State × ℤ :=
  if err < 0 then (states, err)
  else if step = 0 then (states, err)
  else if MAX_STEP < step then (states, PRAND_ERR_STEP)
  else
    let poly := get_poly step
    (states.map (fun s => state_forward s poly), err)

/-- mt19937_reset: reseed one stream (default seed 1 and warning for
seed == 0), then jump ahead by step. -/
def reset (st : State) (sd step : ℕ) (err : ℤ) : State × ℤ :=
  if err < 0 then (st, err)
  else
    let err1 := if sd = 0 then PRAND_WARN_SEED else err
    let st1 := seed (if sd = 0 then DEFAULT_SEED else sd)
    jump st1 step err1

/-- mt19937_reset_all: reseed stream 0; for step == 0 return immediately
(streams 1..N-1 keep their previous states, unlike the MRG path); otherwise
jump (single stream) or fan out via jump_seq. -/
def reset_all (states : List State) (sd step : ℕ) (err : ℤ) : List State × ℤ :=
  if err < 0 then (states, err)
  else
    let err1 := if sd = 0 then PRAND_WARN_SEED else err
    let st1 := seed (if sd = 0 then DEFAULT_SEED else sd)
    let states1 := states.set 0 st1
    if step = 0 then (states1, err1)
    else if MAX_STEP < step then (states1, PRAND_ERR_STEP)
    else if states.length ≤ 1 then
      let r := jump st1 step err1
      (states1.set 0 r.1, r.2)
    else jump_seq states1 st1 states.length step err1

/-- mt19937_init: allocate, seed stream 0, then jump (for nstream ≤ 1) or
fan out through jump_seq (for nstream ≥ 2).  Note the asymmetry with
mrg32k3a_init: the MT path jumps the single stream also for nstream == 1.
Allocation always succeeds in the model; fresh slots hold dfltState
garbage until written. -/
def init (sd : ℕ) (nstream : ℕ) (step : ℕ) (err : ℤ) :
    Option (List State) × ℤ :=
  if MAX_STEP < step then (none, PRAND_ERR_STEP)
  else
    let numstr := if nstream = 0 then 1 else nstream
    let garbage : List State := List.replicate numstr dfltState
    let err1 := if sd = 0 then PRAND_WARN_SEED else err
    let st0 := seed (if sd = 0 then DEFAULT_SEED else sd)
    let states0 := garbage.set 0 st0
    if nstream ≤ 1 then
      let r := jump st0 step err1
      (some (states0.set 0 r.1), r.2)
    else
      let r := jump_seq states0 st0 nstream step err1
      (some r.1, r.2)

end Mt19937

/-- prand_rng_enum: the C enum underlying type is int; values other than
the two defined constants fall into the switch default. -/
def PRAND_RNG_MRG32K3A : ℤ := 0

def PRAND_RNG_MT19937 : ℤ := 1

/-- Result of prand_init: either an MRG stream list or an MT stream list
(the C handle's state_stream), or NULL. -/
inductive Handle where
  | mrg (states : List Mrg32k3a.State) : Handle
  | mt (states : List Mt19937.State) : Handle
  | null : Handle
  deriving DecidableEq

/-- prand_init (prand.c): unconditionally store 0 in the error cell, then
dispatch on the generator type; unknown types yield NULL and
PRAND_ERR_UNDEF_RNG. -/
def prand_init (type : ℤ) (sd : ℕ) (nstream : ℕ) (step : ℕ) (err : ℤ) :
    Handle × ℤ :=
  let err0 : ℤ := 0
  if type = PRAND_RNG_MRG32K3A then
    let r := Mrg32k3a.init sd nstream step err0
    (match r.1 with
     | some states => Handle.mrg states
     | none => Handle.null, r.2)
  else if type = PRAND_RNG_MT19937 then
    let r := Mt19937.init sd nstream step err0
    (match r.1 with
     | some states => Handle.mt states
     | none => Handle.null, r.2)
  else (Handle.null, PRAND_ERR_UNDEF_RNG)

/-- Documented range of an MRG32k3a state: both triples below their
moduli (all components are ℕ, hence non-negative). -/
def Mrg32k3a.inRange (st : Mrg32k3a.State) : Prop :=
  st.s10 < Mrg32k3a.m1 ∧ st.s11 < Mrg32k3a.m1 ∧ st.s12 < Mrg32k3a.m1 ∧
  st.s20 < Mrg32k3a.m2 ∧ st.s21 < Mrg32k3a.m2 ∧ st.s22 < Mrg32k3a.m2

instance (st : Mrg32k3a.State) : Decidable (Mrg32k3a.inRange st) := by
  unfold Mrg32k3a.inRange; infer_instance

/-- Validity of a descending block list: each adjacent pair (fin, start)
satisfies 19937 ≤ start < fin and fin - start ≤ 623. -/
def blocksGood : List ℕ → Bool
  | e :: s :: rest =>
      decide (19937 ≤ s) && decide (s < e) && decide (e - s ≤ 623) && blocksGood (s :: rest)
  | _ => true

end Prand

open Prand

section Helpers

/-- The p1 component computed by mrg32k3a_get lies in [0, m1). -/
theorem mrg_p1_bounds (st : Mrg32k3a.State) :
    0 ≤ (Mrg32k3a.a12 * st.s11 + Mrg32k3a.a13 * st.s10 + Mrg32k3a.add1) % (Mrg32k3a.m1 : ℤ) ∧
    (Mrg32k3a.a12 * st.s11 + Mrg32k3a.a13 * st.s10 + Mrg32k3a.add1) % (Mrg32k3a.m1 : ℤ) <
      Mrg32k3a.m1 := by
  constructor
  · exact Int.emod_nonneg _ (by norm_num [Mrg32k3a.m1])
  · exact Int.emod_lt_of_pos _ (by norm_num [Mrg32k3a.m1])

/-- The p2 component computed by mrg32k3a_get lies in [0, m2). -/
theorem mrg_p2_bounds (st : Mrg32k3a.State) :
    0 ≤ (Mrg32k3a.a21 * st.s22 + Mrg32k3a.a23 * st.s20 + Mrg32k3a.add2) % (Mrg32k3a.m2 : ℤ) ∧
    (Mrg32k3a.a21 * st.s22 + Mrg32k3a.a23 * st.s20 + Mrg32k3a.add2) % (Mrg32k3a.m2 : ℤ) <
      Mrg32k3a.m2 := by
  constructor
  · exact Int.emod_nonneg _ (by norm_num [Mrg32k3a.m2])
  · exact Int.emod_lt_of_pos _ (by norm_num [Mrg32k3a.m2])

end Helpers

/-- Claim C7: under the documented state ranges, mrg32k3a_get returns an
integer in [1, m1]; in particular it never returns 0. -/
theorem c7_mrg_get_range (st : Mrg32k3a.State) (h : Mrg32k3a.inRange st) :
    1 ≤ (Mrg32k3a.get st).1 ∧ (Mrg32k3a.get st).1 ≤ Mrg32k3a.m1 := by
  obtain ⟨hp1l, hp1u⟩ := mrg_p1_bounds st
  obtain ⟨hp2l, hp2u⟩ := mrg_p2_bounds st
  have hm : (Mrg32k3a.m2 : ℤ) < (Mrg32k3a.m1 : ℤ) := by
    norm_num [Mrg32k3a.m1, Mrg32k3a.m2]
  dsimp only [Mrg32k3a.get]
  set p1 := (Mrg32k3a.a12 * st.s11 + Mrg32k3a.a13 * st.s10 + Mrg32k3a.add1) % (Mrg32k3a.m1 : ℤ)
  set p2 := (Mrg32k3a.a21 * st.s22 + Mrg32k3a.a23 * st.s20 + Mrg32k3a.add2) % (Mrg32k3a.m2 : ℤ)
  have hm1big : (Mrg32k3a.m1 : ℤ) < 2 ^ 64 := by norm_num [Mrg32k3a.m1]
  split
  · have h1 : (1 : ℤ) ≤ p1 - p2 + Mrg32k3a.m1 := by omega
    have h2 : p1 - p2 + Mrg32k3a.m1 ≤ Mrg32k3a.m1 := by omega
    rw [Int.emod_eq_of_lt (by omega) (by omega)]
    omega
  · rename_i hgt
    have h1 : (1 : ℤ) ≤ p1 - p2 := by omega
    have h2 : p1 - p2 ≤ Mrg32k3a.m1 := by omega
    rw [Int.emod_eq_of_lt (by omega) (by omega)]
    omega

/-- Witness for C7 at the state seeded with 1. -/
theorem c7_mrg_get_range_witness :
    Mrg32k3a.inRange (Mrg32k3a.seed 1) ∧
      (1 ≤ (Mrg32k3a.get (Mrg32k3a.seed 1)).1 ∧
       (Mrg32k3a.get (Mrg32k3a.seed 1)).1 ≤ Mrg32k3a.m1) :=
  ⟨by decide, c7_mrg_get_range (Mrg32k3a.seed 1) (by decide)⟩

/-- Claim C9: each of jump, jump_all, reset and reset_all of both
generators returns immediately with the stream states and the error cell
unchanged when the error cell already holds a negative value. -/
theorem c9_error_short_circuit (err : ℤ) (herr : err < 0)
    (st : Mrg32k3a.State) (states : List Mrg32k3a.State)
    (mst : Mt19937.State) (mstates : List Mt19937.State) (sd step : ℕ) :
    Mrg32k3a.jump st step err = (st, err) ∧
    Mrg32k3a.jump_all states step err = (states, err) ∧
    Mrg32k3a.reset st sd step err = (st, err) ∧
    Mrg32k3a.reset_all states sd step err = (states, err) ∧
    Mt19937.jump mst step err = (mst, err) ∧
    Mt19937.jump_all mstates step err = (mstates, err) ∧
    Mt19937.reset mst sd step err = (mst, err) ∧
    Mt19937.reset_all mstates sd step err = (mstates, err) := by
  refine ⟨?_, ?_, ?_, ?_, ?_, ?_, ?_, ?_⟩ <;>
    simp [Mrg32k3a.jump, Mrg32k3a.jump_all, Mrg32k3a.reset, Mrg32k3a.reset_all,
      Mt19937.jump, Mt19937.jump_all, Mt19937.reset, Mt19937.reset_all, herr]

/-- Witness for C9 with error -1 and concrete streams. -/
theorem c9_error_short_circuit_witness :
    (-1 : ℤ) < 0 ∧
      Mrg32k3a.jump Mrg32k3a.dfltState 5 (-1) = (Mrg32k3a.dfltState, -1) :=
  ⟨by norm_num,
    (c9_error_short_circuit (-1) (by norm_num) Mrg32k3a.dfltState []
      Mt19937.dfltState [] 3 5).1⟩

/-- Claim C10: prand_init stores 0 in the error cell before dispatching,
so its behaviour is independent of the incoming (possibly negative sticky)
error value, and each generator-specific initializer is entered with a
clear error cell. -/
theorem c10_prand_init_clears_err (type : ℤ) (sd nstream step : ℕ) (err : ℤ) :
    prand_init type sd nstream step err = prand_init type sd nstream step 0 ∧
    (type = 0 →
      (prand_init type sd nstream step err).2 = (Mrg32k3a.init sd nstream step 0).2) ∧
    (type = 1 →
      (prand_init type sd nstream step err).2 = (Mt19937.init sd nstream step 0).2) := by
  refine ⟨rfl, ?_, ?_⟩ <;> intro h <;> subst h <;>
    simp [prand_init, PRAND_RNG_MRG32K3A, PRAND_RNG_MT19937]

/-- Witness for C10 with a poisoned incoming error cell. -/
theorem c10_prand_init_clears_err_witness :
    prand_init 0 1 2 3 (-5) = prand_init 0 1 2 3 0 ∧
      (prand_init 0 1 2 3 (-5)).2 = (Mrg32k3a.init 1 2 3 0).2 :=
  ⟨(c10_prand_init_clears_err 0 1 2 3 (-5)).1,
   (c10_prand_init_clears_err 0 1 2 3 (-5)).2.1 rfl⟩

section Helpers

/-- One mrg32k3a_get step preserves the documented state ranges. -/
theorem mrg_get_preserves_inRange (st : Mrg32k3a.State) (h : Mrg32k3a.inRange st) :
    Mrg32k3a.inRange (Mrg32k3a.get st).2 := by
  obtain ⟨h10, h11, h12, h20, h21, h22⟩ := h
  obtain ⟨hp1l, hp1u⟩ := mrg_p1_bounds st
  obtain ⟨hp2l, hp2u⟩ := mrg_p2_bounds st
  refine ⟨h11, h12, ?_, h21, h22, ?_⟩ <;> dsimp only [Mrg32k3a.get] <;> omega

/-- A freshly seeded MRG32k3a state is in the documented range. -/
theorem mrg_seed_inRange (sd : ℕ) : Mrg32k3a.inRange (Mrg32k3a.seed sd) := by
  refine ⟨?_, ?_, ?_, ?_, ?_, ?_⟩ <;>
    exact Nat.mod_lt _ (by norm_num [Mrg32k3a.m1, Mrg32k3a.m2])

/-- One mt19937_get step keeps the index in [0, N]. -/
theorem mt_get_preserves_idx (st : Mt19937.State) (h : st.idx ≤ Mt19937.N) :
    (Mt19937.get st).2.idx ≤ Mt19937.N := by
  dsimp only [Mt19937.get]
  split
  · simp [Mt19937.N]
  · rename_i hlt
    simp only [not_le] at hlt
    omega

end Helpers

/-- Claim C8: starting from a freshly seeded stream, after any number of
draws the MRG32k3a state stays within the documented ranges (triples below
m1 and m2) and the MT19937 index stays in [0, 624]. -/
theorem c8_state_ranges (sd n : ℕ) :
    Mrg32k3a.inRange ((fun s => (Mrg32k3a.get s).2)^[n] (Mrg32k3a.seed sd)) ∧
    ((fun s => (Mt19937.get s).2)^[n] (Mt19937.seed sd)).idx ≤ Mt19937.N := by
  induction n with
  | zero =>
      exact ⟨mrg_seed_inRange sd, by simp [Mt19937.seed]⟩
  | succ k ih =>
      rw [Function.iterate_succ_apply', Function.iterate_succ_apply']
      exact ⟨mrg_get_preserves_inRange _ ih.1, mt_get_preserves_idx _ ih.2⟩

section Helpers

/-- Element-wise description of the reset_all copy loop: positions
[i, i+c) inside the list receive v, all others are untouched. -/
theorem fill_loop_getD (v d : Mrg32k3a.State) :
    ∀ (c i : ℕ) (l : List Mrg32k3a.State) (j : ℕ),
      (Mrg32k3a.fill_loop v c i l).getD j d =
        if i ≤ j ∧ j < i + c ∧ j < l.length then v else l.getD j d := by
  intro c
  induction c with
  | zero =>
      intro i l j
      simp only [Mrg32k3a.fill_loop]
      rw [if_neg (by omega)]
  | succ k ih =>
      intro i l j
      simp only [Mrg32k3a.fill_loop]
      rw [ih]
      by_cases hij : j = i
      · subst hij
        by_cases hlen : j < l.length
        · rw [if_neg (by omega), if_pos ⟨Nat.le_refl j, by omega, hlen⟩]
          simp [List.getD_eq_getElem?_getD, List.getElem?_set_self, hlen]
        · rw [List.set_eq_of_length_le (by omega), if_neg (by omega),
            if_neg (by omega)]
      · have hget : (l.set i v).getD j d = l.getD j d := by
          simp [List.getD_eq_getElem?_getD,
            List.getElem?_set_ne (fun h => hij h.symm)]
        rw [hget, List.length_set]
        by_cases hc : i + 1 ≤ j ∧ j < i + 1 + k ∧ j < l.length
        · rw [if_pos hc, if_pos ⟨by omega, by omega, hc.2.2⟩]
        · rw [if_neg hc, if_neg (by omega)]

end Helpers

/-- Claim C4: with step == 0 and more than one stream, mrg32k3a_reset_all
copies the freshly seeded state into every stream, whereas
mt19937_reset_all returns right after reseeding stream 0, leaving streams
1..N-1 unchanged. -/
theorem c4_reset_all_step0 (ms : List Mrg32k3a.State) (ts : List Mt19937.State)
    (sd : ℕ) (err : ℤ) (herr : 0 ≤ err) (hms : 2 ≤ ms.length) (hts : 2 ≤ ts.length) :
    (∀ i, i < ms.length →
      (Mrg32k3a.reset_all ms sd 0 err).1.getD i Mrg32k3a.dfltState
        = Mrg32k3a.seed (if sd = 0 then Mrg32k3a.DEFAULT_SEED else sd)) ∧
    (Mt19937.reset_all ts sd 0 err).1
        = ts.set 0 (Mt19937.seed (if sd = 0 then Mt19937.DEFAULT_SEED else sd)) := by
  constructor
  · intro i hi
    have herr' : ¬ err < 0 := by omega
    have hstep : (Mrg32k3a.reset_all ms sd 0 err).1 =
        Mrg32k3a.fill_loop (Mrg32k3a.seed (if sd = 0 then Mrg32k3a.DEFAULT_SEED else sd))
          (ms.length - 1) 1
          (ms.set 0 (Mrg32k3a.seed (if sd = 0 then Mrg32k3a.DEFAULT_SEED else sd))) := by
      simp [Mrg32k3a.reset_all, herr']
    rw [hstep, fill_loop_getD]
    rcases Nat.eq_zero_or_pos i with rfl | hpos
    · rw [if_neg (by omega)]
      simp [List.getD_eq_getElem?_getD, List.getElem?_set_self, (by omega : 0 < ms.length)]
    · rw [if_pos ⟨hpos, by omega, by rw [List.length_set]; omega⟩]
  · have herr' : ¬ err < 0 := by omega
    simp [Mt19937.reset_all, herr']

/-- Witness for C4 with two streams, seed 7 and a clear error cell. -/
theorem c4_reset_all_step0_witness :
    (Mt19937.reset_all [Mt19937.dfltState, Mt19937.dfltState] 7 0 0).1
      = [Mt19937.dfltState, Mt19937.dfltState].set 0 (Mt19937.seed 7) := by
  have h := (c4_reset_all_step0 [Mrg32k3a.dfltState, Mrg32k3a.dfltState]
    [Mt19937.dfltState, Mt19937.dfltState] 7 0 (by norm_num) (by norm_num)
    (by norm_num)).2
  simpa using h

section Helpers

/-- Applying the one-step matrices A1, A2 to an in-range state is exactly
the state update of one mrg32k3a_get draw. -/
theorem mrg_state_forward_one_step (st : Mrg32k3a.State) (h : Mrg32k3a.inRange st) :
    Mrg32k3a.state_forward st Mrg32k3a.A1 Mrg32k3a.A2 = (Mrg32k3a.get st).2 := by
  obtain ⟨h10, h11, h12, h20, h21, h22⟩ := h
  simp only [Mrg32k3a.state_forward, Mrg32k3a.get, Mrg32k3a.A1, Mrg32k3a.A2,
    Mrg32k3a.m1, Mrg32k3a.m2, Mrg32k3a.a12, Mrg32k3a.a13, Mrg32k3a.a21,
    Mrg32k3a.a23, Mrg32k3a.add1, Mrg32k3a.add2, Mrg32k3a.inRange,
    Mrg32k3a.State.mk.injEq] at *
  refine ⟨?_, ?_, ?_, ?_, ?_, ?_⟩ <;> omega

end Helpers

/-- Claim C3 counterexample: the step-0 operator produced by matrix_pow
does not leave states unchanged (it advances the seeded state), and
get_poly(0) is not the constant polynomial 1. -/
theorem c3_counterexample :
    ¬(Mrg32k3a.state_forward (Mrg32k3a.seed 1)
        (Mrg32k3a.matrix_pow 0).1 (Mrg32k3a.matrix_pow 0).2 = Mrg32k3a.seed 1) ∧
    Mt19937.get_poly 0 ≠ 1 := by
  constructor
  · decide
  · decide

/-- Claim C3 (amended): with step == 0, matrix_pow and get_poly return the
jump-table entries at index [0][0]; per the documented table layout these
encode a jump of 1·8^0 = 1 step (the matrices A1, A2 and the polynomial
t^1, packed as the natural number 2), not the identity, and advancing an
in-range state with them performs exactly one draw's state update. -/
theorem c3_step0_returns_one_step_operator :
    Mrg32k3a.matrix_pow 0 = (Mrg32k3a.A1gj8i 0 0, Mrg32k3a.A2gj8i 0 0) ∧
    Mrg32k3a.A1gj8i 0 0 = Mrg32k3a.A1 ∧
    Mrg32k3a.A2gj8i 0 0 = Mrg32k3a.A2 ∧
    Mt19937.get_poly 0 = Mt19937.mt19937_poly 0 0 ∧
    Mt19937.mt19937_poly 0 0 = 2 ∧
    ∀ st : Mrg32k3a.State, Mrg32k3a.inRange st →
      Mrg32k3a.state_forward st (Mrg32k3a.matrix_pow 0).1 (Mrg32k3a.matrix_pow 0).2
        = (Mrg32k3a.get st).2 := by
  have hA : Mrg32k3a.matrix_pow 0 = (Mrg32k3a.A1, Mrg32k3a.A2) := by decide
  refine ⟨by decide, by decide, by decide, by decide, by decide, ?_⟩
  intro st h
  rw [hA]
  exact mrg_state_forward_one_step st h

/-- Witness for C3 at the state seeded with 1. -/
theorem c3_step0_returns_one_step_operator_witness :
    Mrg32k3a.inRange (Mrg32k3a.seed 1) ∧
      Mrg32k3a.state_forward (Mrg32k3a.seed 1)
          (Mrg32k3a.matrix_pow 0).1 (Mrg32k3a.matrix_pow 0).2
        = (Mrg32k3a.get (Mrg32k3a.seed 1)).2 :=
  ⟨by decide,
   c3_step0_returns_one_step_operator.2.2.2.2.2 (Mrg32k3a.seed 1) (by decide)⟩

/-- Claim C2 counterexample: for MRG32k3a with seed 1 and step 1,
reset(seed, step) applied to a state is not the stream-0 state of
init(seed, 1, step): init with nstream == 1 goes through jump_seq, which
never advances stream 0, while reset jumps it by step. -/
theorem c2_counterexample :
    (Mrg32k3a.reset Mrg32k3a.dfltState 1 1 0).1 ≠
      ((Mrg32k3a.init 1 1 1 0).1.getD []).getD 0 Mrg32k3a.dfltState := by
  decide

/-- Claim C2 (amended): reset equivalence holds for MT19937 (whose init
jumps the single stream when nstream ≤ 1); for MRG32k3a it holds at
step == 0, and for positive steps reset(seed, step) instead matches the
stream-0 state of init(seed, 0, step) (nstream == 0, normalized to one
advanced stream) — init(seed, 1, step) leaves stream 0 unadvanced. -/
theorem c2_reset_equiv_amended (mst : Mt19937.State) (rst : Mrg32k3a.State)
    (sd step : ℕ) (err : ℤ) (hstep : step ≤ MAX_STEP) (herr : 0 ≤ err) :
    (Mt19937.init sd 1 step err).1 = some [(Mt19937.reset mst sd step err).1] ∧
    (Mrg32k3a.init sd 1 0 err).1 = some [(Mrg32k3a.reset rst sd 0 err).1] ∧
    (Mrg32k3a.init sd 0 step err).1 = some [(Mrg32k3a.reset rst sd step err).1] := by
  have h1 : ¬ MAX_STEP < step := by omega
  have h2 : ¬ err < 0 := by omega
  have h3 : ¬ (1:ℤ) < 0 := by norm_num
  refine ⟨?_, ?_, ?_⟩ <;> by_cases hsd : sd = 0 <;>
    simp [Mt19937.init, Mt19937.reset, Mrg32k3a.init, Mrg32k3a.reset,
      Mrg32k3a.jump_seq, Mrg32k3a.chain_loop, Mrg32k3a.jump, PRAND_WARN_SEED,
      h1, h2, h3, hsd, List.replicate]

/-- Witness for C2 (amended) at seed 1, step 5, clear error cell. -/
theorem c2_reset_equiv_amended_witness :
    (Mt19937.init 1 1 5 0).1
        = some [(Mt19937.reset Mt19937.dfltState 1 5 0).1] ∧
      (Mrg32k3a.init 1 0 5 0).1
        = some [(Mrg32k3a.reset Mrg32k3a.dfltState 1 5 0).1] := by
  have h := c2_reset_equiv_amended Mt19937.dfltState Mrg32k3a.dfltState 1 5 0
    (by norm_num [MAX_STEP]) (by norm_num)
  exact ⟨h.1, h.2.2⟩

/-- Claim C6 counterexample: the polynomial round-trip does not return the
seeded state itself: recover_state always produces idx = 0 while the
seeded state has idx = 624. -/
theorem c6_counterexample :
    Mt19937.recover_state (Mt19937.poly_of_state (Mt19937.seed 1)) ≠ Mt19937.seed 1 := by
  intro h
  have hidx := congrArg Mt19937.State.idx h
  have h0 : (Mt19937.recover_state (Mt19937.poly_of_state (Mt19937.seed 1))).idx = 0 := rfl
  have h1 : (Mt19937.seed 1).idx = 624 := rfl
  rw [h0, h1] at hidx
  exact absurd hidx (by decide)

/-- Claim C6 (amended): recover_state(polynomial_of_state(S)) always
carries idx = 0 whereas a freshly seeded state carries idx = N = 624, so
the round-trip never returns a seeded state verbatim (it rebuilds a
canonical representative). -/
theorem c6_roundtrip_amended (sd : ℕ) (hsd : sd ≠ 0) :
    (Mt19937.recover_state (Mt19937.poly_of_state (Mt19937.seed sd))).idx = 0 ∧
    (Mt19937.seed sd).idx = Mt19937.N ∧
    Mt19937.recover_state (Mt19937.poly_of_state (Mt19937.seed sd)) ≠ Mt19937.seed sd := by
  refine ⟨rfl, rfl, ?_⟩
  intro h
  have hidx := congrArg Mt19937.State.idx h
  have h0 : (Mt19937.recover_state (Mt19937.poly_of_state (Mt19937.seed sd))).idx = 0 := rfl
  have h1 : (Mt19937.seed sd).idx = 624 := rfl
  rw [h0, h1] at hidx
  exact absurd hidx (by decide)

/-- Witness for C6 (amended) at seed 2. -/
theorem c6_roundtrip_amended_witness :
    (2:ℕ) ≠ 0 ∧
      (Mt19937.recover_state (Mt19937.poly_of_state (Mt19937.seed 2))).idx = 0 :=
  ⟨by norm_num, (c6_roundtrip_amended 2 (by norm_num)).1⟩

/-- Bit description of setAt: word i is replaced by v (v < 2^32), all
other bits are untouched. -/
theorem testBit_setAt {v : ℕ} (hv : v < 2 ^ 32) (r i t : ℕ) :
    (Poly.setAt r i v).testBit t =
      if 32 * i ≤ t ∧ t < 32 * i + 32 then v.testBit (t - 32 * i)
      else r.testBit t := by
  simp only [Poly.setAt, Nat.testBit_xor, Nat.testBit_shiftLeft, Poly.wordAt,
    Nat.testBit_mod_two_pow, Nat.testBit_shiftRight]
  by_cases h1 : 32 * i ≤ t
  · by_cases h2 : t < 32 * i + 32
    · have ht : 32 * i + (t - 32 * i) = t := by omega
      have h3 : t - 32 * i < 32 := by omega
      simp only [h1, h2, h3, ht, if_pos (And.intro h1 h2), decide_eq_true_eq,
        if_true, Bool.true_and, decide_eq_true]
      simp [h1, h3]
    · have hf : v.testBit (t - 32 * i) = false :=
        Nat.testBit_lt_two_pow (lt_of_lt_of_le hv (Nat.pow_le_pow_right (by norm_num) (by omega)))
      have h3 : ¬ t - 32 * i < 32 := by omega
      simp [h1, h2, hf, h3]
  · simp [h1]

/-- Bit description of the shift-0 loop of shifted_add: words i..i+n-1 of a
are XORed into r at word offset w. -/
theorem testBit_xor_words_loop (a : ℕ) :
    ∀ (n i w r t : ℕ),
      (Poly.xor_words_loop a n i w r).testBit t =
        ((r.testBit t).xor
          (decide (32 * w ≤ t ∧ t < 32 * w + 32 * n)
            && a.testBit (32 * i + (t - 32 * w)))) := by
  intro n
  induction n with
  | zero =>
      intro i w r t
      rcases Nat.lt_or_ge t (32 * w) with h | h
      · simp [Poly.xor_words_loop, Nat.not_le.mpr h]
      · simp [Poly.xor_words_loop, Nat.not_lt.mpr h]
  | succ m ih =>
      intro i w r t
      simp only [Poly.xor_words_loop]
      rw [ih]
      simp only [Poly.xorAt, Nat.testBit_xor, Nat.testBit_shiftLeft, Poly.wordAt,
        Nat.testBit_mod_two_pow, Nat.testBit_shiftRight]
      by_cases h1 : 32 * w ≤ t
      · by_cases h2 : t < 32 * w + 32
        · have he : ¬ (32 * (w + 1) ≤ t ∧ t < 32 * (w + 1) + 32 * m) := by omega
          have hin : t - 32 * w < 32 := by omega
          have hc : 32 * w ≤ t ∧ t < 32 * w + 32 * (m + 1) := by omega
          simp [he, hin, h1, hc]
        · by_cases h3 : t < 32 * w + 32 * (m + 1)
          · have he : 32 * (w + 1) ≤ t ∧ t < 32 * (w + 1) + 32 * m := by omega
            have hin : ¬ t - 32 * w < 32 := by omega
            have hc : 32 * w ≤ t ∧ t < 32 * w + 32 * (m + 1) := by omega
            have hidx : 32 * (i + 1) + (t - 32 * (w + 1)) = 32 * i + (t - 32 * w) := by
              omega
            simp [he, hin, h1, hc, hidx]
          · have he : ¬ (32 * (w + 1) ≤ t ∧ t < 32 * (w + 1) + 32 * m) := by omega
            have hin : ¬ t - 32 * w < 32 := by omega
            have hc : ¬ (32 * w ≤ t ∧ t < 32 * w + 32 * (m + 1)) := by omega
            simp [he, hin, hc]
      · have he : ¬ (32 * (w + 1) ≤ t ∧ t < 32 * (w + 1) + 32 * m) := by omega
        have hc : ¬ (32 * w ≤ t ∧ t < 32 * w + 32 * (m + 1)) := by omega
        simp [he, hc, h1]

/-- A bit with index 32 or more of a value below 2^32 is false. -/
theorem testBit_ge32_eq_false {v u : ℕ} (hv : v < 2 ^ 32) (hu : 32 ≤ u) :
    v.testBit u = false :=
  Nat.testBit_lt_two_pow (lt_of_lt_of_le hv (Nat.pow_le_pow_right (by norm_num) hu))

/-- Bit description of the carry loop of shifted_add (0 < shift < 32):
the pattern written into r consists of the top `shift` bits of prev at word
w, followed by n words of a shifted up by `shift`. -/
theorem testBit_shifted_add_loop (a s : ℕ) (hs0 : 0 < s) (hs : s < 32) :
    ∀ (n i w prev : ℕ), prev < 2 ^ 32 → ∀ (r t : ℕ),
      (Poly.shifted_add_loop a s n i prev w r).testBit t =
        ((r.testBit t).xor
          (if 32 * w ≤ t ∧ t < 32 * w + s then prev.testBit (32 - s + (t - 32 * w))
           else if 32 * w + s ≤ t ∧ t < 32 * w + s + 32 * n then
             a.testBit (32 * i + (t - 32 * w - s))
           else false)) := by
  intro n
  induction n with
  | zero =>
      intro i w prev hprev r t
      simp only [Poly.shifted_add_loop, Poly.xorAt, Nat.testBit_xor,
        Nat.testBit_shiftLeft, Nat.testBit_shiftRight]
      by_cases h1 : 32 * w ≤ t
      · by_cases h2 : t < 32 * w + s
        · rw [if_pos (And.intro h1 h2)]
          simp [h1]
        · rw [if_neg (fun hc => h2 hc.2), if_neg (by omega)]
          have : prev.testBit (32 - s + (t - 32 * w)) = false :=
            testBit_ge32_eq_false hprev (by omega)
          simp [h1, this]
      · rw [if_neg (fun hc => h1 hc.1), if_neg (fun hc => h1 (by omega : 32 * w ≤ t))]
        simp [h1]
  | succ m ih =>
      intro i w prev hprev r t
      simp only [Poly.shifted_add_loop]
      rw [ih (i + 1) (w + 1) (Poly.wordAt a i)
        (Nat.mod_lt _ (by norm_num)) _ t]
      simp only [Poly.xorAt, Nat.testBit_xor]
      rw [Bool.xor_assoc]
      congr 1
      have hsr : prev >>> (32 - s) ≤ prev := by
        rw [Nat.shiftRight_eq_div_pow]
        exact Nat.div_le_self _ _
      have hP : ((Poly.wordAt a i <<< s) % 2 ^ 32 ||| prev >>> (32 - s)) < 2 ^ 32 :=
        Nat.or_lt_two_pow (Nat.mod_lt _ (by norm_num)) (lt_of_le_of_lt hsr hprev)
      by_cases h1 : 32 * w ≤ t
      · by_cases h2 : t < 32 * w + s
        · -- zone Z1: the prev spill bits
          have hu : t - 32 * w < 32 := by omega
          rw [if_pos (And.intro h1 h2), if_neg (by omega), if_neg (by omega)]
          simp only [Nat.testBit_shiftLeft, h1, decide_eq_true_eq, Bool.true_and,
            Nat.testBit_or, Nat.testBit_mod_two_pow, Nat.testBit_shiftRight, hu,
            decide_True]
          have hlow : ¬ s ≤ t - 32 * w := by omega
          simp [hlow, h1]
        · by_cases h3 : t < 32 * w + 32
          · -- zone Z2: low part of the shifted word i
            have hu : t - 32 * w < 32 := by omega
            have hus : s ≤ t - 32 * w := by omega
            rw [if_neg (by omega), if_neg (by omega), if_neg (by omega),
              if_pos (And.intro (by omega : 32 * w + s ≤ t) (by omega))]
            simp only [Nat.testBit_shiftLeft, h1, decide_eq_true_eq, Bool.true_and,
              Nat.testBit_or, Nat.testBit_mod_two_pow, Nat.testBit_shiftRight,
              hu, hus, Poly.wordAt]
            have hprevhigh : prev.testBit (32 - s + (t - 32 * w)) = false :=
              testBit_ge32_eq_false hprev (by omega)
            have hlt : t - 32 * w - s < 32 := by omega
            have hidx : 32 * i + (t - 32 * w - s) = 32 * i + (t - 32 * w - s) := rfl
            simp [hu, hus, hprevhigh, hlt, h1,
              (by omega : (t - 32 * w) - s = t - 32 * w - s)]
          · -- zones Z3: beyond word w
            have hPbit : ((Poly.wordAt a i <<< s) % 2 ^ 32 |||
                prev >>> (32 - s)).testBit (t - 32 * w) = false :=
              testBit_ge32_eq_false hP (by omega)
            simp only [Nat.testBit_shiftLeft]
            rw [hPbit, Bool.and_false, Bool.false_xor]
            by_cases h4 : 32 * (w + 1) ≤ t ∧ t < 32 * (w + 1) + s
            · rw [if_pos h4, if_neg (by omega),
                if_pos (And.intro (by omega : 32 * w + s ≤ t) (by omega))]
              simp only [Poly.wordAt, Nat.testBit_mod_two_pow, Nat.testBit_shiftRight]
              have h5 : 32 - s + (t - 32 * (w + 1)) < 32 := by omega
              have h6 : 32 * i + (32 - s + (t - 32 * (w + 1))) = 32 * i + (t - 32 * w - s) := by
                omega
              simp [h5, h6]
            · rw [if_neg h4]
              by_cases h7 : 32 * (w + 1) + s ≤ t ∧ t < 32 * (w + 1) + s + 32 * m
              · rw [if_pos h7, if_neg (show ¬ (32 * w ≤ t ∧ t < 32 * w + s) by omega),
                  if_pos (And.intro (by omega : 32 * w + s ≤ t) (by omega))]
                congr 1
                omega
              · have hg : ¬ (32 * w + s ≤ t ∧ t < 32 * w + s + 32 * (m + 1)) := by
                  omega
                rw [if_neg h7, if_neg hg, if_neg (by omega)]
      · -- t below word w: nothing written
        have h8 : ¬ (32 * (w + 1) ≤ t ∧ t < 32 * (w + 1) + s) := by omega
        have h9 : ¬ (32 * (w + 1) + s ≤ t ∧ t < 32 * (w + 1) + s + 32 * m) := by omega
        have h10 : ¬ (32 * w ≤ t ∧ t < 32 * w + s) := by omega
        have h11 : ¬ (32 * w + s ≤ t ∧ t < 32 * w + s + 32 * (m + 1)) := by omega
        simp [h1, h8, h9, h10, h11]

/-- Bit description of shifted_add: XOR the n words of a, shifted up by
s < 32 bits, into r starting at bit 32*w + s. -/
theorem testBit_shifted_add (a r w n s t : ℕ) (hs : s < 32) :
    (Poly.shifted_add r w a n s).testBit t =
      ((r.testBit t).xor
        (decide (32 * w + s ≤ t ∧ t < 32 * w + s + 32 * n)
          && a.testBit (t - 32 * w - s))) := by
  unfold Poly.shifted_add
  by_cases h0 : s = 0
  · subst h0
    rw [if_pos rfl, testBit_xor_words_loop]
    congr 1
    simp
  · rw [if_neg h0,
      testBit_shifted_add_loop a s (Nat.pos_of_ne_zero h0) hs n 0 w 0 (by norm_num) r t]
    congr 1
    by_cases hA : 32 * w ≤ t ∧ t < 32 * w + s
    · rw [if_pos hA]
      have hB : ¬ (32 * w + s ≤ t ∧ t < 32 * w + s + 32 * n) := by omega
      simp [hB]
    · rw [if_neg hA]
      by_cases hB : 32 * w + s ≤ t ∧ t < 32 * w + s + 32 * n
      · rw [if_pos hB]
        simp [hB]
      · rw [if_neg hB]
        simp [hB]

/-- Words below 2^32. -/
theorem wordAt_lt (r i : ℕ) : Poly.wordAt r i < 2 ^ 32 :=
  Nat.mod_lt _ (by norm_num)

/-- Bit description of the unaligned copy loop: bits [32*i, 32*(i+n)) of
the output are bits of a starting at 32*aoff + left (0 < left < 32); all
other bits keep the value of t. -/
theorem testBit_copy_bits_loop (a aoff left : ℕ) (hl0 : 0 < left) (hl : left < 32) :
    ∀ (n i : ℕ) (tm u : ℕ),
      (Poly.copy_bits_loop a aoff left n i tm).testBit u =
        if 32 * i ≤ u ∧ u < 32 * i + 32 * n then a.testBit (32 * aoff + left + u)
        else tm.testBit u := by
  intro n
  induction n with
  | zero =>
      intro i tm u
      simp only [Poly.copy_bits_loop]
      rw [if_neg (by omega)]
  | succ m ih =>
      intro i tm u
      simp only [Poly.copy_bits_loop]
      rw [ih]
      have hv : (Poly.wordAt a (aoff + i) >>> left |||
          (Poly.wordAt a (aoff + i + 1) <<< (32 - left)) % 2 ^ 32) < 2 ^ 32 :=
        Nat.or_lt_two_pow
          (lt_of_le_of_lt (by rw [Nat.shiftRight_eq_div_pow]; exact Nat.div_le_self _ _)
            (wordAt_lt a (aoff + i)))
          (Nat.mod_lt _ (by norm_num))
      rw [testBit_setAt hv]
      by_cases h1 : 32 * (i + 1) ≤ u ∧ u < 32 * (i + 1) + 32 * m
      · rw [if_pos h1, if_pos (by omega)]
      · rw [if_neg h1]
        by_cases h2 : 32 * i ≤ u ∧ u < 32 * i + 32
        · rw [if_pos h2, if_pos (by omega)]
          have hu : u - 32 * i < 32 := by omega
          simp only [Nat.testBit_or, Nat.testBit_shiftRight, Poly.wordAt,
            Nat.testBit_mod_two_pow, Nat.testBit_shiftLeft]
          by_cases h3 : left + (u - 32 * i) < 32
          · have hsp : ¬ 32 - left ≤ u - 32 * i := by omega
            have hi1 : 32 * (aoff + i) + (left + (u - 32 * i)) =
                32 * aoff + left + u := by omega
            simp [hu, h3, hsp, hi1]
          · have hsp : 32 - left ≤ u - 32 * i := by omega
            have hlt : u - 32 * i - (32 - left) < 32 := by omega
            have hi2 : 32 * (aoff + i + 1) + (u - 32 * i - (32 - left)) =
                32 * aoff + left + u := by omega
            simp [hu, h3, hsp, hlt, hi2]
        · rw [if_neg h2, if_neg (by omega)]

/-- Bit description of the aligned copy loop (the memcpy branch). -/
theorem testBit_copy_words_loop (a aoff : ℕ) :
    ∀ (n i : ℕ) (tm u : ℕ),
      (Poly.copy_words_loop a aoff n i tm).testBit u =
        if 32 * i ≤ u ∧ u < 32 * i + 32 * n then a.testBit (32 * aoff + u)
        else tm.testBit u := by
  intro n
  induction n with
  | zero =>
      intro i tm u
      simp only [Poly.copy_words_loop]
      rw [if_neg (by omega)]
  | succ m ih =>
      intro i tm u
      simp only [Poly.copy_words_loop]
      rw [ih]
      rw [testBit_setAt (wordAt_lt a (aoff + i))]
      by_cases h1 : 32 * (i + 1) ≤ u ∧ u < 32 * (i + 1) + 32 * m
      · rw [if_pos h1, if_pos (by omega)]
      · rw [if_neg h1]
        by_cases h2 : 32 * i ≤ u ∧ u < 32 * i + 32
        · rw [if_pos h2, if_pos (by omega)]
          have hu : u - 32 * i < 32 := by omega
          have hi1 : 32 * (aoff + i) + (u - 32 * i) = 32 * aoff + u := by omega
          rw [show Poly.wordAt a (aoff + i) = (a >>> (32 * (aoff + i))) % 2 ^ 32 from rfl,
            Nat.testBit_mod_two_pow, Nat.testBit_shiftRight, hi1]
          simp [hu]
        · rw [if_neg h2, if_neg (by omega)]

/-- Bit description of copy_bits on the words that the reduction later
reads: within the first `size = ceil((fin-start)/32)` words of the result,
bit u is bit start+u of a when u < fin - start, and zero otherwise. -/
theorem testBit_copy_bits (tm a start fin u : ℕ) (hsf : start < fin)
    (hu : u < 32 * ((fin - start + 31) / 32)) :
    (Poly.copy_bits tm a start fin).testBit u =
      (decide (u < fin - start) && a.testBit (start + u)) := by
  have hstart : 32 * (start / 32) + start % 32 = start := by omega
  have hL : start % 32 < 32 := by omega
  simp only [Poly.copy_bits]
  by_cases hd : (fin - start) % 32 ≠ 0
  · rw [if_pos hd]
    have hmask : 2 ^ ((fin - start) % 32) - 1 < 2 ^ 32 := by
      have h1 : (0:ℕ) < 2 ^ ((fin - start) % 32) := Nat.pos_pow_of_pos _ (by norm_num)
      have h2 : (2:ℕ) ^ ((fin - start) % 32) ≤ 2 ^ 32 :=
        Nat.pow_le_pow_right (by norm_num) (by omega)
      omega
    rw [testBit_setAt (Nat.and_lt_two_pow _ hmask)]
    by_cases hzone : 32 * ((fin - start) / 32) ≤ u ∧ u < 32 * ((fin - start) / 32) + 32
    · rw [if_pos hzone]
      have hb32 : u - 32 * ((fin - start) / 32) < 32 := by omega
      rw [Nat.testBit_and, Nat.testBit_two_pow_sub_one]
      by_cases hb : u - 32 * ((fin - start) / 32) < (fin - start) % 32
      · have hulen : u < fin - start := by omega
        rw [decide_eq_true hb, Bool.and_true, decide_eq_true hulen, Bool.true_and]
        by_cases hlb : start % 32 + (u - 32 * ((fin - start) / 32)) < 32
        · -- the bit comes from the low part a[aoff+n] >> left
          have hbase : (Poly.wordAt a (start / 32 + (fin - start) / 32) >>> (start % 32)).testBit
              (u - 32 * ((fin - start) / 32)) = a.testBit (start + u) := by
            rw [show Poly.wordAt a (start / 32 + (fin - start) / 32) =
              (a >>> (32 * (start / 32 + (fin - start) / 32))) % 2 ^ 32 from rfl]
            simp only [Nat.testBit_shiftRight, Nat.testBit_mod_two_pow]
            have he : 32 * (start / 32 + (fin - start) / 32) +
                (start % 32 + (u - 32 * ((fin - start) / 32))) = start + u := by omega
            simp [hlb, he]
          by_cases hc : start % 32 ≠ 0 ∧ fin % 32 ≠ 0
          · rw [if_pos hc]
            have hspill : ((Poly.wordAt a (start / 32 + (fin - start) / 32 + 1) <<<
                (32 - start % 32)) % 2 ^ 32).testBit (u - 32 * ((fin - start) / 32)) = false := by
              simp only [Nat.testBit_mod_two_pow, Nat.testBit_shiftLeft]
              have : ¬ 32 - start % 32 ≤ u - 32 * ((fin - start) / 32) := by omega
              simp [this]
            rw [Nat.testBit_or, hspill, Bool.or_false, hbase]
          · rw [if_neg hc, hbase]
        · -- the bit comes from the spill word a[aoff+n+1] << (32-left)
          have hl0 : start % 32 ≠ 0 := by omega
          have hf0 : fin % 32 ≠ 0 := by omega
          rw [if_pos (And.intro hl0 hf0), Nat.testBit_or]
          have hbase : (Poly.wordAt a (start / 32 + (fin - start) / 32) >>> (start % 32)).testBit
              (u - 32 * ((fin - start) / 32)) = false := by
            rw [show Poly.wordAt a (start / 32 + (fin - start) / 32) =
              (a >>> (32 * (start / 32 + (fin - start) / 32))) % 2 ^ 32 from rfl]
            simp only [Nat.testBit_shiftRight, Nat.testBit_mod_two_pow]
            have : ¬ start % 32 + (u - 32 * ((fin - start) / 32)) < 32 := by omega
            simp [this]
          have hspill : ((Poly.wordAt a (start / 32 + (fin - start) / 32 + 1) <<<
              (32 - start % 32)) % 2 ^ 32).testBit (u - 32 * ((fin - start) / 32)) =
              a.testBit (start + u) := by
            rw [show Poly.wordAt a (start / 32 + (fin - start) / 32 + 1) =
              (a >>> (32 * (start / 32 + (fin - start) / 32 + 1))) % 2 ^ 32 from rfl]
            simp only [Nat.testBit_mod_two_pow, Nat.testBit_shiftLeft, Nat.testBit_shiftRight]
            have hge : 32 - start % 32 ≤ u - 32 * ((fin - start) / 32) := by omega
            have hlt2 : u - 32 * ((fin - start) / 32) - (32 - start % 32) < 32 := by omega
            have he : 32 * (start / 32 + (fin - start) / 32 + 1) +
                (u - 32 * ((fin - start) / 32) - (32 - start % 32)) = start + u := by omega
            simp [hb32, hge, hlt2, he]
          rw [hbase, hspill, Bool.false_or]
      · have hulen : ¬ u < fin - start := by omega
        simp [hb, hulen]
    · rw [if_neg hzone]
      have hu2 : u < 32 * ((fin - start) / 32) := by omega
      have hulen : u < fin - start := by omega
      by_cases hl' : start % 32 ≠ 0
      · rw [if_pos hl',
          testBit_copy_bits_loop a (start / 32) (start % 32) (by omega) hL]
        rw [if_pos (by omega : 32 * 0 ≤ u ∧ u < 32 * 0 + 32 * ((fin - start) / 32))]
        have he : 32 * (start / 32) + start % 32 + u = start + u := by omega
        simp [he, hulen]
      · rw [if_neg hl',
          testBit_copy_words_loop a (start / 32)]
        rw [if_pos (by omega : 32 * 0 ≤ u ∧ u < 32 * 0 + 32 * ((fin - start) / 32))]
        have he : 32 * (start / 32) + u = start + u := by omega
        simp [he, hulen]
  · rw [if_neg hd]
    have hn : 32 * ((fin - start + 31) / 32) = 32 * ((fin - start) / 32) := by omega
    rw [hn] at hu
    have hulen : u < fin - start := by omega
    by_cases hl' : start % 32 ≠ 0
    · rw [if_pos hl',
        testBit_copy_bits_loop a (start / 32) (start % 32) (by omega) hL]
      rw [if_pos (by omega : 32 * 0 ≤ u ∧ u < 32 * 0 + 32 * ((fin - start) / 32))]
      have he : 32 * (start / 32) + start % 32 + u = start + u := by omega
      simp [he, hulen]
    · rw [if_neg hl',
        testBit_copy_words_loop a (start / 32)]
      rw [if_pos (by omega : 32 * 0 ≤ u ∧ u < 32 * 0 + 32 * ((fin - start) / 32))]
      have he : 32 * (start / 32) + u = start + u := by omega
      simp [he, hulen]

/-- Every non-leading nonzero position of phi is at most 19314. -/
theorem phi_bit_pos_le : ∀ p ∈ Poly.phi_bit_pos, p ≤ 19314 := by decide

/-- The inner loop of poly_mod_phi only touches bits below `start`: every
shifted_add lands the extracted block (whose live length is `len`) at
pos = p + start - 19937 with pos + len ≤ start. -/
theorem mod_phi_inner_preserve (tq size start len : ℕ) (hstart : 19937 ≤ start)
    (htq : ∀ u, len ≤ u → u < 32 * size → tq.testBit u = false) :
    ∀ (ps : List ℕ), (∀ p ∈ ps, p + len ≤ 19937) →
    ∀ (r j : ℕ), start ≤ j →
      (Poly.mod_phi_inner tq size start ps r).testBit j = r.testBit j := by
  intro ps
  induction ps with
  | nil =>
      intro _ r j _
      simp [Poly.mod_phi_inner]
  | cons p ps ih =>
      intro hp r j hj
      have hp1 : p + len ≤ 19937 := hp p (List.mem_cons_self p ps)
      have hstep : Poly.mod_phi_inner tq size start (p :: ps) r =
          Poly.mod_phi_inner tq size start ps
            (Poly.shifted_add r ((p + start - Poly.MT19937_POLY_LEN) / 32) tq size
              ((p + start - Poly.MT19937_POLY_LEN) % 32)) := by
        simp only [Poly.mod_phi_inner, List.foldl_cons]
      rw [hstep]
      rw [ih (fun q hq => hp q (List.mem_cons_of_mem p hq)) _ j hj]
      rw [testBit_shifted_add _ _ _ _ _ _ (Nat.mod_lt _ (by norm_num))]
      have hpos : 32 * ((p + start - Poly.MT19937_POLY_LEN) / 32) +
          (p + start - Poly.MT19937_POLY_LEN) % 32 = p + start - Poly.MT19937_POLY_LEN := by
        omega
      have hsub : j - 32 * ((p + start - Poly.MT19937_POLY_LEN) / 32) -
          (p + start - Poly.MT19937_POLY_LEN) % 32 =
          j - (p + start - Poly.MT19937_POLY_LEN) := by
        omega
      rw [hpos, hsub]
      have hpl : Poly.MT19937_POLY_LEN = 19937 := rfl
      by_cases hc : p + start - Poly.MT19937_POLY_LEN ≤ j ∧
          j < p + start - Poly.MT19937_POLY_LEN + 32 * size
      · have hub : len ≤ j - (p + start - Poly.MT19937_POLY_LEN) := by omega
        have hlb : j - (p + start - Poly.MT19937_POLY_LEN) < 32 * size := by omega
        rw [decide_eq_true hc, Bool.true_and, htq _ hub hlb, Bool.xor_false]
      · rw [decide_eq_false hc, Bool.false_and, Bool.xor_false]

/-- One block of poly_mod_phi clears all bits at indices in [start, fin)
and leaves bits at indices above fin at their (zero) value: after the
block, every bit at index ≥ start is zero. -/
theorem mod_phi_block_clears (r tq s e : ℕ)
    (hs : 19937 ≤ s) (hse : s < e) (hlen : e - s ≤ 623)
    (hr : ∀ j, e ≤ j → r.testBit j = false) :
    ∀ j, s ≤ j → (Poly.mod_phi_block (r, tq) s e).1.testBit j = false := by
  intro j hj
  simp only [Poly.mod_phi_block]
  have hsize : e - s ≤ 32 * ((e - s + Poly.WORD_SIZE - 1) / 32) := by
    have : Poly.WORD_SIZE = 32 := rfl
    omega
  have htq : ∀ u, e - s ≤ u → u < 32 * ((e - s + Poly.WORD_SIZE - 1) / 32) →
      (Poly.copy_bits tq r s e).testBit u = false := by
    intro u hu1 hu2
    rw [testBit_copy_bits tq r s e u hse (by
      have : Poly.WORD_SIZE = 32 := rfl
      omega)]
    simp [Nat.not_lt.mpr hu1]
  have hp : ∀ p ∈ Poly.phi_bit_pos, p + (e - s) ≤ 19937 := by
    intro p hp
    have := phi_bit_pos_le p hp
    omega
  have hinner := mod_phi_inner_preserve (Poly.copy_bits tq r s e)
    ((e - s + Poly.WORD_SIZE - 1) / 32) s (e - s) hs htq Poly.phi_bit_pos hp r j hj
  rw [testBit_shifted_add _ _ _ _ _ _ (Nat.mod_lt _ (by norm_num)), hinner]
  have hpos : 32 * (s / 32) + s % 32 = s := by omega
  have hsub : j - 32 * (s / 32) - s % 32 = j - s := by omega
  rw [hpos, hsub]
  by_cases hje : e ≤ j
  · rw [hr j hje]
    by_cases hc : s ≤ j ∧ j < s + 32 * ((e - s + Poly.WORD_SIZE - 1) / 32)
    · rw [decide_eq_true hc, Bool.true_and,
        htq (j - s) (by omega) (by omega), Bool.false_xor]
    · rw [decide_eq_false hc, Bool.false_and, Bool.false_xor]
  · have hc : s ≤ j ∧ j < s + 32 * ((e - s + Poly.WORD_SIZE - 1) / 32) := by omega
    rw [decide_eq_true hc, Bool.true_and]
    rw [testBit_copy_bits tq r s e (j - s) hse (by
      have : Poly.WORD_SIZE = 32 := rfl
      omega)]
    have hjs : j - s < e - s := by omega
    have hidx : s + (j - s) = j := by omega
    rw [decide_eq_true hjs, Bool.true_and, hidx, Bool.xor_self]


/-- Walking the descending blocks clears everything from the last boundary
up, provided the input is clear from the first boundary up. -/
theorem mod_phi_blocks_clears (l : List ℕ) :
    ∀ (rt : ℕ × ℕ), blocksGood l = true →
      (∀ j, l.headD 0 ≤ j → rt.1.testBit j = false) →
      ∀ j, l.getLastD 0 ≤ j → (Poly.mod_phi_blocks l rt).1.testBit j = false := by
  induction l with
  | nil =>
      intro rt _ hr j hj
      simpa [Poly.mod_phi_blocks] using hr j (by simp)
  | cons e tail ih =>
      cases tail with
      | nil =>
          intro rt _ hr j hj
          simp only [Poly.mod_phi_blocks]
          exact hr j (by simpa using hj)
      | cons s rest =>
          intro rt hg hr j hj
          simp only [blocksGood, Bool.and_eq_true, decide_eq_true_eq] at hg
          obtain ⟨⟨⟨h1, h2⟩, h3⟩, h4⟩ := hg
          simp only [Poly.mod_phi_blocks]
          have hlast : (s :: rest).getLastD 0 = (e :: s :: rest).getLastD 0 := by
            simp [List.getLastD_cons]
          apply ih (Poly.mod_phi_block rt s e) h4
          · intro j2 hj2
            have := mod_phi_block_clears rt.1 rt.2 s e h1 h2 h3
              (fun j3 hj3 => hr j3 (by simpa using hj3)) j2 (by simpa using hj2)
            simpa using this
          · rw [hlast]
            exact hj

/-- Claim C5: for an input polynomial of 2*624 limbs whose degree is below
39875 (the highest block boundary), after poly_mod_phi every bit at index
19937 or above is zero. -/
theorem c5_poly_mod_phi_clears_high (r tmp : ℕ) (hr : r < 2 ^ 39875) :
    ∀ j, 19937 ≤ j → (Poly.poly_mod_phi r tmp).testBit j = false := by
  intro j hj
  have hg : blocksGood Poly.phi_block_pos = true := by decide
  have hhead : Poly.phi_block_pos.headD 0 = 39875 := rfl
  have hlast : Poly.phi_block_pos.getLastD 0 = 19937 := by decide
  have hr' : ∀ j2, Poly.phi_block_pos.headD 0 ≤ j2 → r.testBit j2 = false := by
    intro j2 hj2
    rw [hhead] at hj2
    exact Nat.testBit_lt_two_pow
      (lt_of_lt_of_le hr (Nat.pow_le_pow_right (by norm_num) hj2))
  have := mod_phi_blocks_clears Poly.phi_block_pos (r, tmp) hg hr' j
    (by rw [hlast]; exact hj)
  simpa [Poly.poly_mod_phi] using this

/-- Witness for C5 at r = 0, tmp = 0, bit 19937. -/
theorem c5_poly_mod_phi_clears_high_witness :
    (0:ℕ) < 2 ^ 39875 ∧ (Poly.poly_mod_phi 0 0).testBit 19937 = false :=
  ⟨Nat.two_pow_pos 39875,
    c5_poly_mod_phi_clears_high 0 0 (Nat.two_pow_pos 39875) 19937 (le_refl 19937)⟩
